import Mathlib

/-!
# Verification of the voicenoteapp job-pipeline core

Shallow embedding of `src/ui/src-tauri/src/commands.rs` (the job store,
worker queue, pipeline executor, binary resolver, acquisition subsystem and
segment extraction) together with proofs about the embedded definitions.

Modelling conventions:
* Rust `f32`/`f64` values are modelled as exact rationals (`ℚ`); the claims
  under study concern the ideal arithmetic of the progress/segment maps.
* Strings, vectors and maps are modelled by `String`, `List` and association
  lists.  `Vec::drain`, `Vec::insert(0, _)` etc. are translated literally.
* Side effects (saving the index document, emitting Tauri events, writing
  files, spawning background tasks) are recorded in an explicit `Action`
  trace so that ordering properties ("saved before emitted") are statable.
* Mutex acquisition always succeeds in the model (the code maps poisoning
  to an error string; no claim under study concerns poisoning).
* The concurrent stderr reader thread spawned by `run_whisper_cpp` only
  appends log lines through `append_job_log`; it never writes `progress`,
  so it is modelled by the separate `stderr_reader_run` definition rather
  than being interleaved into the main trace.
-/

namespace Voicenote

/-- Mirror of the Rust `Job` struct (commands.rs lines 43-62).
`f32 progress` is modelled as `ℚ`. -/
structure Job where
  id : String
  filename : String
  status : String
  progress : ℚ
  stage : String
  logs : List String
  created_at : String
  audio_path : String
  transcript_txt_path : String
  transcript_json_path : String
  transcript_srt_path : String
  md_preview : Option String
  summary_status : Option String
  summary_model : Option String
  summary_error : Option String
  summary_md : Option String
  exported_to_obsidian : Bool
deriving DecidableEq

/-- Mirror of the Rust `JobIndex` struct (commands.rs lines 205-208). -/
structure JobIndex where
  jobs : List Job
deriving DecidableEq

/-- Effects performed by the embedded operations, in program order:
persisting the index document (`save_index_to_disk`), emitting the
`job:updated` and `job:log` Tauri events, writing / copying files, and
spawning a detached background task. -/
inductive Action where
  | save (idx : JobIndex)
  | emitUpdated (j : Job)
  | emitLog (id line : String)
  | writeFile (path content : String)
  | copyFile (src dst : String)
  | spawnTask (name id : String)
deriving DecidableEq

/-- Mirror of `push_log` (commands.rs lines 145-152): append a line, then
drain the front so that at most 2000 entries remain. -/
def push_log (logs : List String) (line : String) : List String :=
  let l := logs ++ [line]
  if l.length > 2000 then l.drop (l.length - 2000) else l

/-- `push_log` applied to the `logs` field of a job. -/
def pushLogJob (j : Job) (line : String) : Job :=
  { j with logs := push_log j.logs line }

/-! ## C3: the log buffer is bounded and keeps the most recent entries -/

theorem rtake_eq_drop (l : List α) (n : ℕ) : l.rtake n = l.drop (l.length - n) := rfl

theorem push_log_eq_rtake (logs : List String) (line : String) :
    push_log logs line = (logs ++ [line]).rtake 2000 := by
  simp only [push_log, rtake_eq_drop]
  by_cases h : (logs ++ [line]).length > 2000
  · rw [if_pos h]
  · rw [if_neg h]
    have h0 : (logs ++ [line]).length - 2000 = 0 := by omega
    rw [h0, List.drop_zero]

theorem rtake_length_le (l : List α) (n : ℕ) : (l.rtake n).length ≤ n := by
  rw [List.rtake_eq_reverse_take_reverse]
  simp [List.length_take]

theorem rtake_append_rtake (k : ℕ) (A B : List α) :
    (A.rtake k ++ B).rtake k = (A ++ B).rtake k := by
  rw [List.rtake_eq_reverse_take_reverse, List.rtake_eq_reverse_take_reverse,
    List.rtake_eq_reverse_take_reverse]
  simp only [List.reverse_append, List.reverse_reverse]
  rw [List.take_append_eq_append_take, List.take_append_eq_append_take, List.take_take]
  have hmin : (k - B.reverse.length) ⊓ k = k - B.reverse.length :=
    inf_eq_left.mpr (Nat.sub_le _ _)
  rw [hmin]

theorem foldl_push_log_eq_rtake (lines : List String) (init : List String)
    (hne : lines ≠ []) :
    lines.foldl push_log init = (init ++ lines).rtake 2000 := by
  induction lines generalizing init with
  | nil => exact absurd rfl hne
  | cons l ls ih =>
    by_cases hls : ls = []
    · subst hls
      simp only [List.foldl_cons, List.foldl_nil]
      rw [push_log_eq_rtake]
    · simp only [List.foldl_cons]
      rw [ih (push_log init l) hls, push_log_eq_rtake, rtake_append_rtake,
        List.append_assoc]
      rfl

theorem rtake_append_of_le_length (k : ℕ) (A B : List α) (h : k ≤ B.length) :
    (A ++ B).rtake k = B.rtake k := by
  rw [List.rtake_eq_reverse_take_reverse, List.rtake_eq_reverse_take_reverse,
    List.reverse_append, List.take_append_eq_append_take]
  have h0 : k - B.reverse.length = 0 := by
    rw [List.length_reverse]; omega
  rw [h0, List.take_zero, List.append_nil]

/-- C3: for any starting buffer, appending `N > 2000` lines through
`push_log` leaves exactly the most recent 2000 appended lines, in order;
moreover every single `push_log` call returns a buffer of length at most
2000, and the spec's concrete example (appending lines `0..2099` leaves
lines `100..2099`) is an instance. -/
theorem push_log_bounded_most_recent (init lines : List String)
    (h : lines.length > 2000) :
    lines.foldl push_log init = lines.drop (lines.length - 2000)
      ∧ (lines.foldl push_log init).length = 2000
      ∧ (∀ logs line, (push_log logs line).length ≤ 2000)
      ∧ ((List.range 2100).map toString).foldl push_log []
          = (((List.range 2100).map toString).drop 100) := by
  have hne : lines ≠ [] := by
    intro hnil; rw [hnil] at h; simp at h
  have hmain : lines.foldl push_log init = lines.drop (lines.length - 2000) := by
    rw [foldl_push_log_eq_rtake lines init hne,
      rtake_append_of_le_length 2000 init lines (by omega), rtake_eq_drop]
  refine ⟨hmain, ?_, ?_, ?_⟩
  · rw [hmain]
    simp [List.length_drop]
    omega
  · intro logs line
    rw [push_log_eq_rtake]
    exact rtake_length_le _ _
  · have hlen : ((List.range 2100).map toString).length = 2100 := by simp
    have hne' : ((List.range 2100).map toString) ≠ [] := by
      intro hcon
      rw [hcon] at hlen
      simp at hlen
    rw [foldl_push_log_eq_rtake _ [] hne', List.nil_append, rtake_eq_drop, hlen]

/-- Witness for C3 at a concrete input of 2101 appended lines. -/
theorem push_log_bounded_most_recent_witness :
    ((List.range 2101).map toString).length > 2000
      ∧ (((List.range 2101).map toString).foldl push_log []
            = ((List.range 2101).map toString).drop (((List.range 2101).map toString).length - 2000)
          ∧ (((List.range 2101).map toString).foldl push_log []).length = 2000
          ∧ (∀ logs line, (push_log logs line).length ≤ 2000)
          ∧ ((List.range 2100).map toString).foldl push_log []
              = (((List.range 2100).map toString).drop 100)) :=
  ⟨by simp only [List.length_map, List.length_range]; norm_num,
    push_log_bounded_most_recent [] _
      (by simp only [List.length_map, List.length_range]; norm_num)⟩

/-! ## Progress parsing (commands.rs lines 428-437) -/

/-- Accumulating splitter over the character list: maximal runs of
non-whitespace characters become tokens, whitespace is discarded. -/
def wsSplit : List Char → List Char → List String
  | acc, [] => if acc = [] then [] else [String.mk acc.reverse]
  | acc, c :: cs =>
    if c.isWhitespace then
      if acc = [] then wsSplit [] cs
      else String.mk acc.reverse :: wsSplit [] cs
    else wsSplit (c :: acc) cs

/-- Rust `str::split_whitespace`: split on whitespace, dropping empty
pieces. -/
def splitWhitespace (s : String) : List String :=
  wsSplit [] s.data

/-- Rust `str::strip_suffix('%')`: remove one trailing `%` if present. -/
def stripPercent (t : String) : Option String :=
  match t.data.reverse with
  | '%' :: rest => some (String.mk rest.reverse)
  | _ => none

def natOfDigits (cs : List Char) : ℕ :=
  cs.foldl (fun n c => n * 10 + (c.toNat - 48)) 0

/-- Rust `f32::max` on the rational model. -/
def ratMax (a b : ℚ) : ℚ := if a ≤ b then b else a

/-- Rust `f32::min` on the rational model. -/
def ratMin (a b : ℚ) : ℚ := if a ≤ b then a else b

/-- Negate when the literal carried a `-` sign. -/
def applySign (neg : Bool) (v : ℚ) : ℚ := if neg then -v else v

/-- Model of Rust `str::parse::<f32>()` on plain decimal literals
(optional sign, integer digits, optional fraction), returning the exact
rational value.  The exotic float literal forms Rust additionally accepts
(exponents, `inf`, `NaN`) are outside the modelled fragment; no claim
under study depends on them. -/
def parseF32 (s : String) : Option ℚ :=
  let cs := s.toList
  let signAndRest : Bool × List Char :=
    match cs with
    | '+' :: r => (false, r)
    | '-' :: r => (true, r)
    | r => (false, r)
  let neg := signAndRest.1
  let rest := signAndRest.2
  let ip := rest.takeWhile Char.isDigit
  let rest2 := rest.drop ip.length
  match rest2 with
  | [] =>
    if ip = [] then none
    else some (applySign neg (natOfDigits ip : ℚ))
  | '.' :: fp =>
    if fp.all Char.isDigit ∧ (ip ≠ [] ∨ fp ≠ []) then
      some (applySign neg ((natOfDigits ip : ℚ) + (natOfDigits fp : ℚ) / 10 ^ fp.length))
    else none
  | _ => none

/-- Mirror of `parse_progress_from_line`'s token loop: the first
whitespace token carrying a `%` suffix whose stem parses as a number wins;
the parsed value is clamped by `value.max(0.0).min(100.0)`. -/
def findProgressToken : List String → Option ℚ
  | [] => none
  | t :: ts =>
    match stripPercent t with
    | some stripped =>
      match parseF32 stripped with
      | some value => some (ratMin (ratMax value 0) 100)
      | none => findProgressToken ts
    | none => findProgressToken ts

/-- Mirror of `parse_progress_from_line` (commands.rs lines 428-437). -/
def parse_progress_from_line (line : String) : Option ℚ :=
  findProgressToken (splitWhitespace line)

/-- The stage-relative map applied to a parsed percentage inside
`run_whisper_cpp` (commands.rs line 958): `0.3 + (progress / 100.0) * 0.6`. -/
def mapTranscribeProgress (progress : ℚ) : ℚ :=
  3/10 + (progress / 100) * (6/10)

/-! ## Job store primitives -/

/-- `guard.jobs.iter().find(|job| job.id == id)`. -/
def findJob (idx : JobIndex) (id : String) : Option Job :=
  idx.jobs.find? (fun j => j.id == id)

/-- `guard.jobs.iter_mut().find(|job| job.id == id)` followed by an
in-place mutation: returns the mutated snapshot (if found) and the
resulting list. -/
def mutateFirst (id : String) (f : Job → Job) : List Job → Option Job × List Job
  | [] => (none, [])
  | j :: js =>
    if j.id == id then (some (f j), f j :: js)
    else
      let r := mutateFirst id f js
      (r.1, j :: r.2)

/-- Mirror of `update_job_and_emit` (commands.rs lines 439-458): mutate the
job in place, save the whole index, then emit the `job:updated` snapshot;
a missing id performs no action. -/
def update_job_and_emit (idx : JobIndex) (id : String) (f : Job → Job) :
    JobIndex × List Action :=
  let r := mutateFirst id f idx.jobs
  match r.1 with
  | some j' => (⟨r.2⟩, [.save ⟨r.2⟩, .emitUpdated j'])
  | none => (idx, [])

/-- Mirror of `append_job_log` (commands.rs lines 460-466): push the line
onto the bounded log via `update_job_and_emit`, then emit a `job:log`
event. -/
def append_job_log (idx : JobIndex) (id : String) (line : String) :
    JobIndex × List Action :=
  let r := update_job_and_emit idx id (fun j => pushLogJob j line)
  (r.1, r.2 ++ [.emitLog id line])

/-! ### Basic lemmas about the job-store primitives -/

theorem mutateFirst_spec (id : String) (f : Job → Job)
    (hf : ∀ j, (f j).id = j.id) : ∀ l : List Job,
    (mutateFirst id f l).1 = (l.find? (fun j => j.id == id)).map f
      ∧ ((mutateFirst id f l).2.find? (fun j => j.id == id))
          = (l.find? (fun j => j.id == id)).map f
      ∧ ((l.find? (fun j => j.id == id)) = none → (mutateFirst id f l).2 = l) := by
  intro l
  induction l with
  | nil => simp [mutateFirst]
  | cons j js ih =>
    by_cases hj : j.id == id
    · refine ⟨?_, ?_, ?_⟩
      · simp [mutateFirst, hj, List.find?_cons]
      · have hfj : (f j).id == id := by
          rw [hf j]; exact hj
        simp [mutateFirst, hj, List.find?_cons, hfj]
      · intro hnone
        simp [List.find?_cons, hj] at hnone
    · refine ⟨?_, ?_, ?_⟩
      · simpa [mutateFirst, hj, List.find?_cons] using ih.1
      · simpa [mutateFirst, hj, List.find?_cons] using ih.2.1
      · intro hnone
        have hj' : (j.id == id) = false := by simpa using hj
        simp only [List.find?_cons, hj'] at hnone
        simp only [mutateFirst, hj', Bool.false_eq_true, if_false]
        exact congrArg (j :: ·) (ih.2.2 (by simpa using hnone))

theorem mutateFirst_fst (id : String) (f : Job → Job) : ∀ l : List Job,
    (mutateFirst id f l).1 = (l.find? (fun j => j.id == id)).map f := by
  intro l
  induction l with
  | nil => simp [mutateFirst]
  | cons j js ih =>
    by_cases hj : j.id == id
    · simp [mutateFirst, hj, List.find?_cons]
    · simpa [mutateFirst, hj, List.find?_cons] using ih

theorem mutateFirst_mem (id : String) (f : Job → Job) (l : List Job) (j' : Job)
    (h : (mutateFirst id f l).1 = some j') : j' ∈ (mutateFirst id f l).2 := by
  induction l with
  | nil => simp [mutateFirst] at h
  | cons j js ih =>
    by_cases hj : j.id == id
    · simp only [mutateFirst, hj, if_true, Option.some.injEq] at h ⊢
      simp [h]
    · simp only [mutateFirst, hj, if_false] at h ⊢
      exact List.mem_cons_of_mem _ (ih h)

/-! ## Pipeline executor embedding (commands.rs lines 909-1305)

The interactions with the operating system (resolver results, file
existence, subprocess output and exit status, configuration snapshot) are
collected in a `PipelineEnv` record; `process_job` is a pure function of
that environment, the job index and the job id, returning the new index,
the trace of performed effects and the `Result` value. -/

structure PipelineEnv where
  model_size : String
  language : Option String
  enable_summarization : Bool
  auto_summarize : Bool
  ffmpegRes : Except String String
  convertRes : Except String Unit
  whisperRes : Except String (String × String)
  whisperSpawn : Except String Unit
  whisperExitOk : Bool
  stdoutLines : List String
  stderrLines : List String
  fileExists : String → Bool

/-- `Path::join` on the string paths of the model. -/
def pjoin (a b : String) : String := a ++ "/" ++ b

/-- Split a character list at every occurrence of `sep` (the components
may be empty), modelling `str::split` / `String.splitOn` for a one-character
separator. -/
def splitOnChar (sep : Char) : List Char → List (List Char)
  | [] => [[]]
  | c :: cs =>
    let r := splitOnChar sep cs
    if c = sep then [] :: r
    else
      match r with
      | [] => [[c]]
      | g :: gs => (c :: g) :: gs

/-- Join path components with `/`. -/
def joinSlash : List String → String
  | [] => ""
  | [s] => s
  | s :: rest => s ++ "/" ++ joinSlash rest

/-- Model of `job_dir_from_audio_path` (commands.rs lines 335-337),
i.e. `Path::parent`: drop the last `/`-separated component. -/
def parentDir (p : String) : Option String :=
  if p = "" then none
  else some (joinSlash (((splitOnChar '/' p.data).map String.mk).dropLast))

def stubTranscript : String := "Stub transcript from Rust core.\n"

def stubSegmentsJson : String :=
  "[\x7b\"start\":0.0,\"end\":1.5,\"text\":\"Stub segment one.\"\x7d,\x7b\"start\":1.6,\"end\":3.2,\"text\":\"Stub segment two.\"\x7d]"

/-- Mirror of `write_stub_artifacts` (commands.rs lines 339-358): returns
the artifact path triple and the file writes performed. -/
def write_stub_artifacts (jobDir : String) : (String × String × String) × List Action :=
  let tp := pjoin jobDir "transcript.txt"
  let sp := pjoin jobDir "segments.json"
  let rp := pjoin jobDir "transcript.srt"
  ((tp, sp, rp),
    [.writeFile tp stubTranscript, .writeFile sp stubSegmentsJson, .writeFile rp ""])

/-- The `mark_error` closure of `process_job` (commands.rs lines 1129-1137). -/
def mark_error (idx : JobIndex) (id message : String) : JobIndex × List Action :=
  let r := update_job_and_emit idx id (fun j =>
    pushLogJob { j with status := "error", stage := "error" } message)
  (r.1, r.2 ++ [.emitLog id message])

/-- Handling of one stdout line in `run_whisper_cpp` (commands.rs lines
956-965): a parsed percentage updates stage/progress, then the line is
appended to the log. -/
def whisper_line_step (idx : JobIndex) (id line : String) : JobIndex × List Action :=
  let r1 :=
    match parse_progress_from_line line with
    | some progress =>
      update_job_and_emit idx id (fun j =>
        { j with stage := "transcribe", progress := mapTranscribeProgress progress })
    | none => (idx, [])
  let r2 := append_job_log r1.1 id line
  (r2.1, r1.2 ++ r2.2)

/-- The stdout reading loop of `run_whisper_cpp`. -/
def whisper_lines_run (id : String) : JobIndex → List String → JobIndex × List Action
  | idx, [] => (idx, [])
  | idx, line :: rest =>
    let r1 := whisper_line_step idx id line
    let r2 := whisper_lines_run id r1.1 rest
    (r2.1, r1.2 ++ r2.2)

/-- The stderr reader thread body of `run_whisper_cpp` (commands.rs lines
943-952).  It runs concurrently with the stdout loop and only appends log
lines; it is modelled as its own run rather than a fixed interleaving. -/
def stderr_reader_run (id : String) : JobIndex → List String → JobIndex × List Action
  | idx, [] => (idx, [])
  | idx, line :: rest =>
    let r1 := append_job_log idx id line
    let r2 := stderr_reader_run id r1.1 rest
    (r2.1, r1.2 ++ r2.2)

/-- Mirror of `run_whisper_cpp` (commands.rs lines 909-975): spawn the
subprocess, stream stdout lines, then surface a non-zero exit status as an
error. -/
def run_whisper_cpp (env : PipelineEnv) (idx : JobIndex) (id : String) :
    JobIndex × List Action × Except String Unit :=
  match env.whisperSpawn with
  | .error e => (idx, [], .error ("failed to run whisper: " ++ e))
  | .ok _ =>
    let r := whisper_lines_run id idx env.stdoutLines
    (r.1, r.2, if env.whisperExitOk then .ok () else .error "whisper failed")

/-- Completion phase of `process_job` (commands.rs lines 1185-1288): if the
expected whisper outputs are missing, fall back to stub artifacts and still
mark the job `done`; otherwise record the real artifacts, then queue or
skip summarization. -/
def finish_job (env : PipelineEnv) (idx : JobIndex) (id jobDir : String) :
    JobIndex × List Action :=
  let outputBase := pjoin jobDir "whisper"
  let txtPath := outputBase ++ ".txt"
  let jsonPath := outputBase ++ ".json"
  let srtPath := outputBase ++ ".srt"
  if !env.fileExists txtPath || !env.fileExists jsonPath then
    let w := write_stub_artifacts jobDir
    let r := mutateFirst id (fun j =>
      pushLogJob { j with
        progress := 1, status := "done", stage := "done",
        transcript_txt_path := w.1.1,
        transcript_json_path := w.1.2.1,
        transcript_srt_path := w.1.2.2,
        md_preview := some "Stub transcript from Rust core.",
        summary_status := some "skipped" } "Worker finished (stub).") idx.jobs
    match r.1 with
    | some j' =>
      (⟨r.2⟩, [.emitLog id "Whisper output missing; falling back to stub."] ++ w.2
        ++ [.save ⟨r.2⟩, .emitUpdated j', .emitLog id "Worker finished (stub)."])
    | none =>
      (idx, [.emitLog id "Whisper output missing; falling back to stub."] ++ w.2)
  else
    let r := mutateFirst id (fun j =>
      pushLogJob { j with
        progress := 1, status := "done", stage := "done",
        transcript_txt_path := txtPath,
        transcript_json_path := jsonPath,
        transcript_srt_path := srtPath,
        md_preview := some "Transcript ready.",
        summary_status :=
          some (if env.enable_summarization then "not_started" else "skipped") }
        "Whisper finished.") idx.jobs
    let base : JobIndex × List Action :=
      match r.1 with
      | some j' =>
        (⟨r.2⟩, [.save ⟨r.2⟩, .emitUpdated j', .emitLog id "Whisper finished."])
      | none => (idx, [])
    let summaryTr : List Action :=
      if env.enable_summarization && env.auto_summarize then
        [.emitLog id "Summarization queued.", .spawnTask "summarize" id]
      else
        [.emitLog id "Summarization skipped."]
    (base.1, base.2 ++ summaryTr)

/-- The phase of `process_job` after the convert stage: transcribe-stage
update, whisper resolution, whisper run, completion (commands.rs lines
1158-1288).  Pipeline failures are swallowed into a terminal `error` job
state (`mark_error`) and `process_job` still returns `Ok`. -/
def after_convert (env : PipelineEnv) (idx : JobIndex) (id jobDir : String) :
    JobIndex × List Action :=
  let r3 := update_job_and_emit idx id (fun j =>
    { j with stage := "transcribe", progress := 3/10 })
  let trLog : List Action := [.emitLog id "Running whisper.cpp..."]
  match env.whisperRes with
  | .error e =>
    let r4 := mark_error r3.1 id e
    (r4.1, r3.2 ++ trLog ++ r4.2)
  | .ok _ =>
    let r5 := run_whisper_cpp env r3.1 id
    match r5.2.2 with
    | .error e =>
      let r6 := mark_error r5.1 id e
      (r6.1, r3.2 ++ trLog ++ r5.2.1 ++ r6.2)
    | .ok _ =>
      let r7 := finish_job env r5.1 id jobDir
      (r7.1, r3.2 ++ trLog ++ r5.2.1 ++ r7.2)

/-- The mutation applied when the worker picks up a job (commands.rs lines
1111-1115). -/
def startMut (j : Job) : Job :=
  pushLogJob { j with status := "running", stage := "convert", progress := 1/10 }
    "Worker started."

/-- Mirror of `process_job` (commands.rs lines 1085-1289). -/
def process_job (env : PipelineEnv) (idx : JobIndex) (id : String) :
    JobIndex × List Action × Except String Unit :=
  let r := mutateFirst id startMut idx.jobs
  match r.1 with
  | none => (idx, [], .error "missing job directory")
  | some j1 =>
    let idx1 : JobIndex := ⟨r.2⟩
    let tr1 : List Action := [.save idx1, .emitUpdated j1, .emitLog id "Worker started."]
    match parentDir j1.audio_path with
    | none => (idx1, tr1, .error "missing job directory")
    | some jobDir =>
      match env.ffmpegRes with
      | .error e =>
        let r2 := mark_error idx1 id e
        (r2.1, tr1 ++ r2.2, .ok ())
      | .ok _ =>
        let wavPath := pjoin jobDir "audio.wav"
        if env.fileExists wavPath then
          let r8 := after_convert env idx1 id jobDir
          (r8.1, tr1 ++ r8.2, .ok ())
        else
          match env.convertRes with
          | .error e =>
            let r2 := mark_error idx1 id e
            (r2.1, tr1 ++ [.emitLog id "Converting audio to 16k mono WAV..."] ++ r2.2,
              .ok ())
          | .ok _ =>
            let r8 := after_convert env idx1 id jobDir
            (r8.1, tr1 ++ [.emitLog id "Converting audio to 16k mono WAV..."] ++ r8.2,
              .ok ())

/-! ## Worker queue embedding (commands.rs lines 1291-1305)

`spawn_worker` creates one mpsc channel and exactly one consumer thread
which runs `for job_id in receiver { ... }`; the channel preserves the
enqueue order, so the consumer is modelled as a fold over the list of
enqueued ids.  `jobStart`/`jobEnd` mark the invocation and the return of
`process_job` for one id. -/

inductive WEvent where
  | jobStart (id : String)
  | act (a : Action)
  | jobEnd (id : String)
  | workerErrLog (id line : String)
deriving DecidableEq

/-- The events of one iteration of the consumer loop: `process_job` runs
from start to finish and an `Err` return is reported as a `job:log` event
before the loop continues. -/
def runEvents (env : String → PipelineEnv) (idx : JobIndex) (id : String) : List WEvent :=
  let r := process_job (env id) idx id
  [.jobStart id] ++ r.2.1.map WEvent.act ++ [.jobEnd id]
    ++ (match r.2.2 with
        | .error e => [.workerErrLog id ("Worker error: " ++ e)]
        | .ok _ => [])

/-- The consumer loop of `spawn_worker`. -/
def worker_loop (env : String → PipelineEnv) : JobIndex → List String → JobIndex × List WEvent
  | idx, [] => (idx, [])
  | idx, id :: rest =>
    let r := process_job (env id) idx id
    let r2 := worker_loop env r.1 rest
    (r2.1, runEvents env idx id ++ r2.2)

/-! ## Job creation and cancellation (commands.rs lines 1377-1476) -/

/-- Rust `Path::file_name` on the model's string paths: the last non-empty
`/`-separated component. -/
def lastComponent (p : String) : Option String :=
  (((splitOnChar '/' p.data).map String.mk).filter (fun s => s ≠ "")).getLast?

/-- Rust `Path::extension`: text after the last `.` of the file name, with
no extension for dotless or hidden (single leading dot) names. -/
def extOf (p : String) : String :=
  match lastComponent p with
  | none => ""
  | some fname =>
    let parts := (splitOnChar '.' fname.data).map String.mk
    if parts.length ≤ 1 then ""
    else if parts.head? = some "" ∧ parts.length = 2 then ""
    else (parts.getLast?).getD ""

/-- Mirror of `build_job_audio_path` (commands.rs lines 319-333); directory
creation is elided. -/
def build_job_audio_path (jobsDir jobId sourcePath : String) : String :=
  let ext := extOf sourcePath
  let filename := if ext = "" then "audio.original" else "audio.original." ++ ext
  pjoin (pjoin jobsDir jobId) filename

/-- Mirror of `create_job_from_path_inner` (commands.rs lines 1377-1420):
copy the audio into the job folder, prepend the new queued job to the
index, save, then emit the update and log events.  `jobId` and `createdAt`
stand for `generate_job_id()` and `unix_timestamp_string()`. -/
def create_job_from_path_inner (idx : JobIndex) (jobsDir path jobId createdAt : String) :
    JobIndex × List Action × Job :=
  let filename := (lastComponent path).getD "unknown-audio"
  let destPath := build_job_audio_path jobsDir jobId path
  let job0 : Job := {
    id := jobId, filename := filename, status := "queued", progress := 0,
    stage := "import", logs := [], created_at := createdAt, audio_path := destPath,
    transcript_txt_path := "", transcript_json_path := "", transcript_srt_path := "",
    md_preview := none, summary_status := some "not_started", summary_model := none,
    summary_error := none, summary_md := none, exported_to_obsidian := false }
  let job := pushLogJob job0 "Queued for processing."
  let idx' : JobIndex := ⟨job :: idx.jobs⟩
  (idx', [.copyFile path destPath, .save idx', .emitUpdated job,
    .emitLog job.id "Queued for processing."], job)

/-- Mirror of `cancel_job` (commands.rs lines 1450-1476): mutate the job to
`cancelled` whatever its current status, save and emit; a missing id
returns `false` without saving. -/
def cancel_job (idx : JobIndex) (id : String) : Bool × JobIndex × List Action :=
  let r := mutateFirst id (fun j =>
    pushLogJob { j with status := "cancelled", stage := "cancelled" } "Job cancelled.")
    idx.jobs
  match r.1 with
  | none => (false, idx, [])
  | some j' =>
    (true, ⟨r.2⟩, [.save ⟨r.2⟩, .emitUpdated j', .emitLog j'.id "Job cancelled."])

/-! ## Derived facts about the store primitives -/

/-- The sequence of `progress` values carried by the `job:updated` events
of a trace, in emission order. -/
def emittedProgress (tr : List Action) : List ℚ :=
  tr.filterMap (fun a => match a with | .emitUpdated j => some j.progress | _ => none)

/-- The `progress` field of the job with the given id, if present. -/
def progOf (idx : JobIndex) (id : String) : Option ℚ :=
  (findJob idx id).map (fun j => j.progress)

theorem update_job_and_emit_of_found (idx : JobIndex) (id : String) (f : Job → Job)
    (hf : ∀ j, (f j).id = j.id) (j0 : Job) (h0 : findJob idx id = some j0) :
    (update_job_and_emit idx id f).2
        = [.save (update_job_and_emit idx id f).1, .emitUpdated (f j0)]
      ∧ findJob (update_job_and_emit idx id f).1 id = some (f j0) := by
  have h := mutateFirst_spec id f hf idx.jobs
  have h1 : (mutateFirst id f idx.jobs).1 = some (f j0) := by
    rw [h.1, findJob] at *
    rw [h0]
    rfl
  have h2 : ((mutateFirst id f idx.jobs).2.find? (fun j => j.id == id)) = some (f j0) := by
    rw [h.2.1]
    rw [findJob] at h0
    rw [h0]
    rfl
  constructor
  · simp only [update_job_and_emit, h1]
  · simp only [update_job_and_emit, h1, findJob, h2]

theorem update_job_and_emit_of_missing (idx : JobIndex) (id : String) (f : Job → Job)
    (hf : ∀ j, (f j).id = j.id) (h0 : findJob idx id = none) :
    update_job_and_emit idx id f = (idx, []) := by
  have h := mutateFirst_spec id f hf idx.jobs
  have h1 : (mutateFirst id f idx.jobs).1 = none := by
    rw [h.1]
    rw [findJob] at h0
    rw [h0]
    rfl
  simp only [update_job_and_emit, h1]

theorem append_job_log_of_found (idx : JobIndex) (id line : String) (j0 : Job)
    (h0 : findJob idx id = some j0) :
    (append_job_log idx id line).2
        = [.save (append_job_log idx id line).1, .emitUpdated (pushLogJob j0 line),
            .emitLog id line]
      ∧ findJob (append_job_log idx id line).1 id = some (pushLogJob j0 line) := by
  have hf : ∀ j : Job, (pushLogJob j line).id = j.id := fun j => rfl
  have h := update_job_and_emit_of_found idx id (fun j => pushLogJob j line) hf j0 h0
  refine ⟨?_, h.2⟩
  simp only [append_job_log, h.1]
  rfl

theorem append_job_log_of_missing (idx : JobIndex) (id line : String)
    (h0 : findJob idx id = none) :
    append_job_log idx id line = (idx, [.emitLog id line]) := by
  have hf : ∀ j : Job, (pushLogJob j line).id = j.id := fun j => rfl
  have h := update_job_and_emit_of_missing idx id (fun j => pushLogJob j line) hf h0
  simp only [append_job_log, h]
  rfl

/-! ## C4: progress parsing and the transcribe-stage map -/

theorem findProgressToken_bounds (ts : List String) (p : ℚ)
    (h : findProgressToken ts = some p) : 0 ≤ p ∧ p ≤ 100 := by
  induction ts with
  | nil => simp [findProgressToken] at h
  | cons t ts ih =>
    simp only [findProgressToken] at h
    split at h
    · split at h
      · rename_i value heq
        have hp : ratMin (ratMax value 0) 100 = p := by simpa using h
        subst hp
        unfold ratMin ratMax
        split_ifs <;> constructor <;> linarith
      · exact ih h
    · exact ih h

theorem parse_progress_bounds (line : String) (p : ℚ)
    (h : parse_progress_from_line line = some p) : 0 ≤ p ∧ p ≤ 100 :=
  findProgressToken_bounds _ p h

theorem mapTranscribeProgress_bounds (p : ℚ) (h0 : 0 ≤ p) (h1 : p ≤ 100) :
    3/10 ≤ mapTranscribeProgress p ∧ mapTranscribeProgress p ≤ 9/10 := by
  unfold mapTranscribeProgress
  constructor <;> nlinarith

/-- C4: a stdout line is scanned for a whitespace token with a trailing
`%`; when one parses, the value is clamped to `[0,100]` and the job's
progress during the transcribe stage is set to `0.3 + (p/100)*0.6`, which
always lies in `[0.30, 0.90]`; a line with no such token leaves the job's
progress unchanged (no progress update is published). -/
theorem progress_parsing_spec (line : String) (p : ℚ)
    (h : parse_progress_from_line line = some p) :
    (0 ≤ p ∧ p ≤ 100)
      ∧ mapTranscribeProgress p = 3/10 + (p / 100) * (6/10)
      ∧ (∀ idx id (j0 : Job), findJob idx id = some j0 →
          findJob (whisper_line_step idx id line).1 id
            = some (pushLogJob
                { j0 with stage := "transcribe", progress := mapTranscribeProgress p }
                line))
      ∧ (3/10 ≤ mapTranscribeProgress p ∧ mapTranscribeProgress p ≤ 9/10)
      ∧ (∀ line' idx id, parse_progress_from_line line' = none →
          progOf (whisper_line_step idx id line').1 id = progOf idx id) := by
  obtain ⟨hp0, hp1⟩ := parse_progress_bounds line p h
  refine ⟨⟨hp0, hp1⟩, rfl, ?_, mapTranscribeProgress_bounds p hp0 hp1, ?_⟩
  · intro idx id j0 h0
    have hf : ∀ j : Job,
        Job.id { j with stage := "transcribe", progress := mapTranscribeProgress p }
          = j.id := fun _ => rfl
    have hu := update_job_and_emit_of_found idx id
      (fun j => { j with stage := "transcribe", progress := mapTranscribeProgress p })
      hf j0 h0
    have ha := append_job_log_of_found
      (update_job_and_emit idx id
        (fun j => { j with stage := "transcribe", progress := mapTranscribeProgress p })).1
      id line _ hu.2
    simp only [whisper_line_step, h]
    exact ha.2
  · intro line' idx id hnone
    simp only [whisper_line_step, hnone]
    cases h0 : findJob idx id with
    | none =>
      have ha := append_job_log_of_missing idx id line' h0
      simp only [ha, progOf, h0]
    | some j0 =>
      have ha := append_job_log_of_found idx id line' j0 h0
      simp only [progOf, ha.2, h0, Option.map_some]
      rfl

/-- Witness for C4 on the line `"transcribing 42% done"`. -/
theorem progress_parsing_spec_witness :
    parse_progress_from_line "transcribing 42% done" = some 42
      ∧ ((0 ≤ (42 : ℚ) ∧ (42 : ℚ) ≤ 100)
          ∧ mapTranscribeProgress 42 = 3/10 + ((42 : ℚ) / 100) * (6/10)
          ∧ (∀ idx id (j0 : Job), findJob idx id = some j0 →
              findJob (whisper_line_step idx id "transcribing 42% done").1 id
                = some (pushLogJob
                    { j0 with
                      stage := "transcribe",
                      progress := mapTranscribeProgress 42 }
                    "transcribing 42% done"))
          ∧ (3/10 ≤ mapTranscribeProgress 42 ∧ mapTranscribeProgress 42 ≤ 9/10)
          ∧ (∀ line' idx id, parse_progress_from_line line' = none →
              progOf (whisper_line_step idx id line').1 id = progOf idx id)) :=
  ⟨by decide, progress_parsing_spec "transcribing 42% done" 42 (by decide)⟩

/-! ## C10: cancel_job semantics -/

/-- C10: `cancel_job` on an existing job id — whatever its current status,
terminal `done`/`error` included — sets status and stage to `cancelled`,
appends the `"Job cancelled."` log line, saves before emitting, and
returns `true`; on a missing id it returns `false` and leaves the index
untouched with an empty effect trace (in particular no save). -/
theorem cancel_job_spec (idx : JobIndex) (id : String) :
    (∀ j0 : Job, findJob idx id = some j0 →
        (cancel_job idx id).1 = true
          ∧ findJob (cancel_job idx id).2.1 id
              = some (pushLogJob { j0 with status := "cancelled", stage := "cancelled" }
                  "Job cancelled.")
          ∧ (cancel_job idx id).2.2
              = [.save (cancel_job idx id).2.1,
                  .emitUpdated (pushLogJob { j0 with status := "cancelled", stage := "cancelled" }
                    "Job cancelled."),
                  .emitLog j0.id "Job cancelled."])
      ∧ (findJob idx id = none → cancel_job idx id = (false, idx, [])) := by
  have hf : ∀ j : Job,
      Job.id (pushLogJob { j with status := "cancelled", stage := "cancelled" } "Job cancelled.")
        = j.id := fun _ => rfl
  have h := mutateFirst_spec id
    (fun j => pushLogJob { j with status := "cancelled", stage := "cancelled" } "Job cancelled.")
    hf idx.jobs
  constructor
  · intro j0 h0
    rw [findJob] at h0
    have h1 : (mutateFirst id (fun j =>
          pushLogJob { j with status := "cancelled", stage := "cancelled" } "Job cancelled.")
          idx.jobs).1
        = some (pushLogJob { j0 with status := "cancelled", stage := "cancelled" }
            "Job cancelled.") := by
      rw [h.1, h0]
      rfl
    have h2 := h.2.1
    rw [h0] at h2
    refine ⟨?_, ?_, ?_⟩
    · simp only [cancel_job, h1]
    · simp only [cancel_job, h1, findJob]
      exact h2
    · simp only [cancel_job, h1]
      rfl
  · intro h0
    rw [findJob] at h0
    have h1 : (mutateFirst id (fun j =>
          pushLogJob { j with status := "cancelled", stage := "cancelled" } "Job cancelled.")
          idx.jobs).1 = none := by
      rw [h.1, h0]
      rfl
    simp only [cancel_job, h1]

/-- A sample job in the terminal `done` status, used by concrete witnesses. -/
def sampleJob : Job := {
  id := "job_1", filename := "a.m4a", status := "done", progress := 1,
  stage := "done", logs := [], created_at := "0",
  audio_path := "jobs/job_1/audio.original.m4a",
  transcript_txt_path := "", transcript_json_path := "", transcript_srt_path := "",
  md_preview := none, summary_status := none, summary_model := none,
  summary_error := none, summary_md := none, exported_to_obsidian := false }

def sampleIndex : JobIndex := ⟨[sampleJob]⟩

/-- Witness for C10: cancelling the terminal `done` job succeeds and
rewrites it to `cancelled`; cancelling a missing id is a no-op returning
`false`. -/
theorem cancel_job_spec_witness :
    ((cancel_job sampleIndex "job_1").1 = true
        ∧ findJob (cancel_job sampleIndex "job_1").2.1 "job_1"
            = some (pushLogJob { sampleJob with status := "cancelled", stage := "cancelled" }
                "Job cancelled.")
        ∧ (cancel_job sampleIndex "job_1").2.2
            = [.save (cancel_job sampleIndex "job_1").2.1,
                .emitUpdated (pushLogJob
                  { sampleJob with status := "cancelled", stage := "cancelled" }
                  "Job cancelled."),
                .emitLog sampleJob.id "Job cancelled."])
      ∧ cancel_job sampleIndex "missing" = (false, sampleIndex, []) :=
  ⟨(cancel_job_spec sampleIndex "job_1").1 sampleJob (by decide),
    (cancel_job_spec sampleIndex "missing").2 (by decide)⟩

/-! ## C2: every `job:updated` emission is preceded by a save -/

/-- A trace never announces a job snapshot that was not saved first: every
`job:updated` event is preceded (strictly earlier in the trace) by a save
of an index containing the announced snapshot. -/
def savedBeforeEmit (tr : List Action) : Prop :=
  ∀ i (j : Job), tr.get? i = some (.emitUpdated j) →
    ∃ k idx, k < i ∧ tr.get? k = some (.save idx) ∧ j ∈ idx.jobs

theorem savedBeforeEmit_append {t1 t2 : List Action}
    (h1 : savedBeforeEmit t1) (h2 : savedBeforeEmit t2) :
    savedBeforeEmit (t1 ++ t2) := by
  intro i j hij
  by_cases hi : i < t1.length
  · rw [List.get?_append hi] at hij
    obtain ⟨k, idx, hk, hks, hmem⟩ := h1 i j hij
    exact ⟨k, idx, hk, by rw [List.get?_append (lt_trans hk hi)]; exact hks, hmem⟩
  · push_neg at hi
    rw [List.get?_append_right hi] at hij
    obtain ⟨k, idx, hk, hks, hmem⟩ := h2 _ j hij
    refine ⟨t1.length + k, idx, by omega, ?_, hmem⟩
    rw [List.get?_append_right (by omega)]
    simpa using hks

theorem savedBeforeEmit_no_updates {tr : List Action}
    (h : ∀ j : Job, Action.emitUpdated j ∉ tr) : savedBeforeEmit tr := by
  intro i j hij
  exact absurd (List.get?_mem hij) (h j)

theorem savedBeforeEmit_nil : savedBeforeEmit [] := by
  intro i j hij
  simp at hij

theorem savedBeforeEmit_save_head (idx : JobIndex) (tail : List Action)
    (h : ∀ j : Job, Action.emitUpdated j ∈ tail → j ∈ idx.jobs) :
    savedBeforeEmit (Action.save idx :: tail) := by
  intro i j hij
  cases i with
  | zero => simp at hij
  | succ n =>
    refine ⟨0, idx, Nat.succ_pos n, rfl, ?_⟩
    exact h j (List.get?_mem (by simpa using hij))

theorem savedBeforeEmit_update (idx : JobIndex) (id : String) (f : Job → Job) :
    savedBeforeEmit (update_job_and_emit idx id f).2 := by
  simp only [update_job_and_emit]
  split
  case h_1 x j' hr =>
    apply savedBeforeEmit_save_head
    intro j hj
    simp only [List.mem_singleton, Action.emitUpdated.injEq] at hj
    subst hj
    exact mutateFirst_mem id f idx.jobs _ hr
  case h_2 x hr => exact savedBeforeEmit_nil

theorem savedBeforeEmit_append_log (idx : JobIndex) (id line : String) :
    savedBeforeEmit (append_job_log idx id line).2 := by
  simp only [append_job_log]
  apply savedBeforeEmit_append (savedBeforeEmit_update idx id _)
  exact savedBeforeEmit_no_updates (by intro j hj; simp at hj)

theorem savedBeforeEmit_mark_error (idx : JobIndex) (id msg : String) :
    savedBeforeEmit (mark_error idx id msg).2 := by
  simp only [mark_error]
  apply savedBeforeEmit_append (savedBeforeEmit_update idx id _)
  exact savedBeforeEmit_no_updates (by intro j hj; simp at hj)

theorem savedBeforeEmit_line_step (idx : JobIndex) (id line : String) :
    savedBeforeEmit (whisper_line_step idx id line).2 := by
  simp only [whisper_line_step]
  cases h : parse_progress_from_line line with
  | some q =>
    simp only [h]
    exact savedBeforeEmit_append (savedBeforeEmit_update idx id _)
      (savedBeforeEmit_append_log _ id line)
  | none =>
    simp only [h]
    exact savedBeforeEmit_append savedBeforeEmit_nil (savedBeforeEmit_append_log _ id line)

theorem savedBeforeEmit_lines_run (id : String) (lines : List String) :
    ∀ idx : JobIndex, savedBeforeEmit (whisper_lines_run id idx lines).2 := by
  induction lines with
  | nil =>
    intro idx
    exact savedBeforeEmit_nil
  | cons line rest ih =>
    intro idx
    exact savedBeforeEmit_append (savedBeforeEmit_line_step idx id line) (ih _)

theorem savedBeforeEmit_run_whisper (env : PipelineEnv) (idx : JobIndex) (id : String) :
    savedBeforeEmit (run_whisper_cpp env idx id).2.1 := by
  simp only [run_whisper_cpp]
  cases env.whisperSpawn with
  | error e => exact savedBeforeEmit_nil
  | ok _ => exact savedBeforeEmit_lines_run id env.stdoutLines idx

theorem savedBeforeEmit_block (idx : JobIndex) (j' : Job) (lead tail : List Action)
    (hmem : j' ∈ idx.jobs)
    (hlead : ∀ j : Job, Action.emitUpdated j ∉ lead)
    (htail : ∀ j : Job, Action.emitUpdated j ∈ tail → j ∈ idx.jobs) :
    savedBeforeEmit (lead ++ Action.save idx :: Action.emitUpdated j' :: tail) := by
  apply savedBeforeEmit_append (savedBeforeEmit_no_updates hlead)
  apply savedBeforeEmit_save_head
  intro j hj
  simp only [List.mem_cons, Action.emitUpdated.injEq] at hj
  rcases hj with hj | hj
  · subst hj
    exact hmem
  · exact htail j (by simpa using hj)

theorem savedBeforeEmit_finish (env : PipelineEnv) (idx : JobIndex) (id jobDir : String) :
    savedBeforeEmit (finish_job env idx id jobDir).2 := by
  simp only [finish_job]
  split
  · split
    next j' hr =>
      have hmem := mutateFirst_mem _ _ _ _ hr
      refine savedBeforeEmit_block _ j' _ _ hmem ?_ ?_
      · intro j hj
        simp [write_stub_artifacts] at hj
      · intro j hj
        simp at hj
    next hr =>
      exact savedBeforeEmit_no_updates (by intro j hj; simp [write_stub_artifacts] at hj)
  · split
    next j' hr =>
      have hmem := mutateFirst_mem _ _ _ _ hr
      apply savedBeforeEmit_append
      · exact savedBeforeEmit_block _ j' [] _ hmem (by intro j hj; simp at hj)
          (by intro j hj; simp at hj)
      · exact savedBeforeEmit_no_updates (by intro j hj; split at hj <;> simp at hj)
    next hr =>
      exact savedBeforeEmit_append savedBeforeEmit_nil
        (savedBeforeEmit_no_updates (by intro j hj; split at hj <;> simp at hj))

theorem savedBeforeEmit_after_convert (env : PipelineEnv) (idx : JobIndex)
    (id jobDir : String) :
    savedBeforeEmit (after_convert env idx id jobDir).2 := by
  simp only [after_convert]
  have hlog : savedBeforeEmit [Action.emitLog id "Running whisper.cpp..."] :=
    savedBeforeEmit_no_updates (by intro j hj; simp at hj)
  split
  · exact savedBeforeEmit_append
      (savedBeforeEmit_append (savedBeforeEmit_update idx id _) hlog)
      (savedBeforeEmit_mark_error _ id _)
  · split
    · exact savedBeforeEmit_append
        (savedBeforeEmit_append
          (savedBeforeEmit_append (savedBeforeEmit_update idx id _) hlog)
          (savedBeforeEmit_run_whisper env _ id))
        (savedBeforeEmit_mark_error _ id _)
    · exact savedBeforeEmit_append
        (savedBeforeEmit_append
          (savedBeforeEmit_append (savedBeforeEmit_update idx id _) hlog)
          (savedBeforeEmit_run_whisper env _ id))
        (savedBeforeEmit_finish env _ id jobDir)

theorem savedBeforeEmit_process_job (env : PipelineEnv) (idx : JobIndex) (id : String) :
    savedBeforeEmit (process_job env idx id).2.1 := by
  simp only [process_job]
  have hconv : savedBeforeEmit [Action.emitLog id "Converting audio to 16k mono WAV..."] :=
    savedBeforeEmit_no_updates (by intro j hj; simp at hj)
  split
  next hr => exact savedBeforeEmit_nil
  next j1 hr =>
    have hstart : savedBeforeEmit
        [Action.save ⟨(mutateFirst id startMut idx.jobs).2⟩, Action.emitUpdated j1,
          Action.emitLog id "Worker started."] := by
      refine savedBeforeEmit_block _ j1 [] _ (mutateFirst_mem id startMut idx.jobs j1 hr)
        (by intro j hj; simp at hj) (by intro j hj; simp at hj)
    split
    · exact hstart
    · split
      · exact savedBeforeEmit_append hstart (savedBeforeEmit_mark_error _ id _)
      · split
        · exact savedBeforeEmit_append hstart (savedBeforeEmit_after_convert env _ id _)
        · split
          · exact savedBeforeEmit_append (savedBeforeEmit_append hstart hconv)
              (savedBeforeEmit_mark_error _ id _)
          · exact savedBeforeEmit_append (savedBeforeEmit_append hstart hconv)
              (savedBeforeEmit_after_convert env _ id _)

/-- C2: across every operation that can raise a `job:updated`
notification — `update_job_and_emit`, the whole pipeline run of
`process_job` (start transition, transcribe updates, log appends, error
and completion transitions), job creation, and `cancel_job` — the produced
effect trace saves the job index (with the announced snapshot already in
it) strictly before the `job:updated` event is emitted. -/
theorem saved_before_emitted :
    (∀ (idx : JobIndex) (id : String) (f : Job → Job),
        savedBeforeEmit (update_job_and_emit idx id f).2)
      ∧ (∀ (env : PipelineEnv) (idx : JobIndex) (id : String),
          savedBeforeEmit (process_job env idx id).2.1)
      ∧ (∀ (idx : JobIndex) (jobsDir path jobId createdAt : String),
          savedBeforeEmit (create_job_from_path_inner idx jobsDir path jobId createdAt).2.1)
      ∧ (∀ (idx : JobIndex) (id : String), savedBeforeEmit (cancel_job idx id).2.2) := by
  refine ⟨savedBeforeEmit_update, savedBeforeEmit_process_job, ?_, ?_⟩
  · intro idx jobsDir path jobId createdAt
    simp only [create_job_from_path_inner]
    refine savedBeforeEmit_block _ _ [Action.copyFile path _] _ ?_ ?_ ?_
    · exact List.mem_cons_self _ _
    · intro j hj
      simp at hj
    · intro j hj
      simp at hj
  · intro idx id
    simp only [cancel_job]
    split
    next hr => exact savedBeforeEmit_nil
    next j' hr =>
      refine savedBeforeEmit_block _ j' [] _ (mutateFirst_mem id _ idx.jobs j' hr)
        (by intro j hj; simp at hj) (by intro j hj; simp at hj)

/-! ## C5: progress monotonicity within one pipeline run -/

theorem pushLogJob_progress (j : Job) (line : String) :
    (pushLogJob j line).progress = j.progress := rfl

theorem emittedProgress_append (a b : List Action) :
    emittedProgress (a ++ b) = emittedProgress a ++ emittedProgress b := by
  simp [emittedProgress, List.filterMap_append]

theorem getLastD_append (a b : List ℚ) (d : ℚ) :
    (a ++ b).getLastD d = b.getLastD (a.getLastD d) := by
  induction a generalizing d with
  | nil => rfl
  | cons x a ih =>
    rw [List.cons_append, List.getLastD_cons, List.getLastD_cons, ih]

theorem chain_snoc (p : ℚ) (l : List ℚ) (r : ℚ)
    (hc : List.Chain' (· ≤ ·) (p :: l)) (hle : l.getLastD p ≤ r) :
    List.Chain' (· ≤ ·) (p :: (l ++ [r])) := by
  induction l generalizing p with
  | nil =>
    simp only [List.getLastD_nil] at hle
    simp [List.chain'_cons, hle]
  | cons a l ih =>
    rw [List.chain'_cons] at hc
    rw [List.getLastD_cons] at hle
    rw [List.cons_append, List.chain'_cons]
    exact ⟨hc.1, ih a hc.2 hle⟩

theorem mapTranscribeProgress_mono (q q' : ℚ) (h : q ≤ q') :
    mapTranscribeProgress q ≤ mapTranscribeProgress q' := by
  unfold mapTranscribeProgress
  nlinarith

theorem filterMap_parse_bounds (lines : List String) (q : ℚ)
    (hq : q ∈ lines.filterMap parse_progress_from_line) : 0 ≤ q ∧ q ≤ 100 := by
  obtain ⟨line, -, hline⟩ := List.mem_filterMap.mp hq
  exact parse_progress_bounds line q hline

/-- Inductive core: streaming the stdout lines from a state whose job has
progress `p` yields a non-decreasing emitted-progress sequence whenever the
mapped parsed percentages are non-decreasing and start at or above `p`;
the job's final progress is the last emitted value. -/
theorem whisper_lines_chain (id : String) (lines : List String) :
    ∀ (idx : JobIndex) (j0 : Job), findJob idx id = some j0 →
    List.Chain' (· ≤ ·)
      (j0.progress :: (lines.filterMap parse_progress_from_line).map mapTranscribeProgress) →
    List.Chain' (· ≤ ·) (j0.progress :: emittedProgress (whisper_lines_run id idx lines).2)
      ∧ ∃ j1 : Job, findJob (whisper_lines_run id idx lines).1 id = some j1
          ∧ (emittedProgress (whisper_lines_run id idx lines).2).getLastD j0.progress
              = j1.progress
          ∧ (j0.progress ≤ 9/10 → j1.progress ≤ 9/10) := by
  induction lines with
  | nil =>
    intro idx j0 h0 _
    refine ⟨?_, j0, h0, rfl, fun h => h⟩
    simp [whisper_lines_run, emittedProgress]
  | cons line rest ih =>
    intro idx j0 h0 hchain
    simp only [List.filterMap_cons] at hchain
    cases hp : parse_progress_from_line line with
    | none =>
      simp only [hp] at hchain
      simp only [whisper_lines_run, whisper_line_step, hp, List.nil_append]
      have hstep := append_job_log_of_found idx id line j0 h0
      have hih := ih (append_job_log idx id line).1 (pushLogJob j0 line) hstep.2 hchain
      obtain ⟨hc, j1, hj1, hlast, hbound⟩ := hih
      rw [hstep.1]
      have hemit : emittedProgress
          [Action.save (append_job_log idx id line).1,
            Action.emitUpdated (pushLogJob j0 line), Action.emitLog id line]
          = [j0.progress] := by
        simp [emittedProgress, pushLogJob_progress]
      rw [emittedProgress_append, hemit]
      refine ⟨?_, j1, hj1, ?_, hbound⟩
      · simp only [List.cons_append, List.nil_append, List.chain'_cons]
        exact ⟨le_refl _, hc⟩
      · rw [getLastD_append]
        simpa [pushLogJob_progress] using hlast
    | some q =>
      simp only [hp, List.map_cons, List.chain'_cons] at hchain
      simp only [whisper_lines_run, whisper_line_step, hp]
      have hf : ∀ j : Job,
          Job.id { j with stage := "transcribe", progress := mapTranscribeProgress q }
            = j.id := fun _ => rfl
      have hupd := update_job_and_emit_of_found idx id
        (fun j => { j with stage := "transcribe", progress := mapTranscribeProgress q })
        hf j0 h0
      have hstep := append_job_log_of_found
        (update_job_and_emit idx id
          (fun j => { j with stage := "transcribe", progress := mapTranscribeProgress q })).1
        id line _ hupd.2
      have hih := ih _
        (pushLogJob { j0 with stage := "transcribe", progress := mapTranscribeProgress q } line)
        hstep.2 hchain.2
      obtain ⟨hc, j1, hj1, hlast, hbound⟩ := hih
      rw [hupd.1, hstep.1]
      have hemit1 : emittedProgress
          [Action.save (update_job_and_emit idx id
              (fun j => { j with stage := "transcribe", progress := mapTranscribeProgress q })).1,
            Action.emitUpdated
              { j0 with stage := "transcribe", progress := mapTranscribeProgress q }]
          = [mapTranscribeProgress q] := by
        simp [emittedProgress]
      have hemit2 : emittedProgress
          [Action.save (append_job_log (update_job_and_emit idx id
              (fun j => { j with stage := "transcribe", progress := mapTranscribeProgress q })).1
              id line).1,
            Action.emitUpdated (pushLogJob
              { j0 with stage := "transcribe", progress := mapTranscribeProgress q } line),
            Action.emitLog id line]
          = [mapTranscribeProgress q] := by
        simp [emittedProgress, pushLogJob_progress]
      rw [emittedProgress_append, emittedProgress_append, hemit1, hemit2]
      have hq := parse_progress_bounds line q hp
      have hmap910 : mapTranscribeProgress q ≤ 9/10 := by
        unfold mapTranscribeProgress
        nlinarith [hq.1, hq.2]
      refine ⟨?_, j1, hj1, ?_, fun _ => hbound hmap910⟩
      · simp only [List.cons_append, List.nil_append, List.chain'_cons]
        exact ⟨hchain.1, le_refl _, hc⟩
      · rw [getLastD_append, getLastD_append]
        simpa [pushLogJob_progress] using hlast

theorem mark_error_emits (idx : JobIndex) (id msg : String) (j0 : Job)
    (h0 : findJob idx id = some j0) :
    emittedProgress (mark_error idx id msg).2 = [j0.progress] := by
  have hf : ∀ j : Job,
      Job.id (pushLogJob { j with status := "error", stage := "error" } msg) = j.id :=
    fun _ => rfl
  have hupd := update_job_and_emit_of_found idx id
    (fun j => pushLogJob { j with status := "error", stage := "error" } msg) hf j0 h0
  simp only [mark_error]
  rw [emittedProgress_append, hupd.1]
  simp [emittedProgress, pushLogJob_progress]

theorem finish_job_emits (env : PipelineEnv) (idx : JobIndex) (id jobDir : String)
    (j1 : Job) (h1 : findJob idx id = some j1) :
    emittedProgress (finish_job env idx id jobDir).2 = [1] := by
  rw [findJob] at h1
  simp only [finish_job]
  split
  · split
    next j' hr =>
      rw [mutateFirst_fst, h1, Option.map_some'] at hr
      have hj' := Option.some.inj hr
      subst hj'
      simp [emittedProgress, write_stub_artifacts, emittedProgress_append,
        pushLogJob_progress]
    next hr =>
      rw [mutateFirst_fst, h1, Option.map_some'] at hr
      simp at hr
  · split
    next j' hr =>
      rw [mutateFirst_fst, h1, Option.map_some'] at hr
      have hj' := Option.some.inj hr
      subst hj'
      rw [emittedProgress_append]
      have h2 : emittedProgress
          (if env.enable_summarization && env.auto_summarize then
            [Action.emitLog id "Summarization queued.", Action.spawnTask "summarize" id]
          else [Action.emitLog id "Summarization skipped."]) = [] := by
        split <;> rfl
      rw [h2]
      simp [emittedProgress, pushLogJob_progress]
    next hr =>
      rw [mutateFirst_fst, h1, Option.map_some'] at hr
      simp at hr

theorem after_convert_chain (env : PipelineEnv) (idx : JobIndex) (id jobDir : String)
    (j0 : Job) (h0 : findJob idx id = some j0)
    (h : List.Chain' (· ≤ ·) (env.stdoutLines.filterMap parse_progress_from_line)) :
    ∃ l : List ℚ, emittedProgress (after_convert env idx id jobDir).2 = 3/10 :: l
      ∧ List.Chain' (· ≤ ·) ((3/10 : ℚ) :: l) := by
  have hmapped : List.Chain' (· ≤ ·)
      ((3/10 : ℚ)
        :: (env.stdoutLines.filterMap parse_progress_from_line).map mapTranscribeProgress) := by
    rw [List.chain'_cons']
    constructor
    · intro b hb
      rw [List.head?_map] at hb
      obtain ⟨q, hq1, hq2⟩ := Option.map_eq_some'.mp (Option.mem_def.mp hb)
      have hqmem := List.mem_of_mem_head? (Option.mem_def.mpr hq1)
      have hqb := filterMap_parse_bounds _ q hqmem
      rw [← hq2]
      unfold mapTranscribeProgress
      nlinarith [hqb.1, hqb.2]
    · rw [List.chain'_map]
      exact h.imp (fun a b hab => mapTranscribeProgress_mono a b hab)
  have hf : ∀ j : Job,
      Job.id { j with stage := "transcribe", progress := (3/10 : ℚ) } = j.id := fun _ => rfl
  have hupd := update_job_and_emit_of_found idx id
    (fun j => { j with stage := "transcribe", progress := (3/10 : ℚ) }) hf j0 h0
  simp only [after_convert]
  split
  · -- whisper resolution failed: 0.3 update then mark_error
    rename_i e he
    have hm := mark_error_emits _ id e _ hupd.2
    refine ⟨[3/10], ?_, ?_⟩
    · rw [emittedProgress_append, emittedProgress_append, hupd.1, hm]
      simp [emittedProgress]
    · simp only [List.chain'_cons, List.chain'_singleton]
      exact ⟨le_refl _, trivial⟩
  · -- whisper resolved: run the subprocess
    simp only [run_whisper_cpp]
    cases hspawn : env.whisperSpawn with
    | error e =>
      simp only [hspawn]
      have hm := mark_error_emits _ id ("failed to run whisper: " ++ e) _ hupd.2
      refine ⟨[3/10], ?_, ?_⟩
      · rw [emittedProgress_append, emittedProgress_append, emittedProgress_append,
          hupd.1, hm]
        simp [emittedProgress]
      · simp only [List.chain'_cons, List.chain'_singleton]
        exact ⟨le_refl _, trivial⟩
    | ok u =>
      simp only [hspawn]
      have hlines := whisper_lines_chain id env.stdoutLines _ _ hupd.2 hmapped
      obtain ⟨hc, jw, hjw, hlast, hbound⟩ := hlines
      split
      · -- non-zero exit: mark_error after the streamed lines
        rename_i e' he'
        have hm := mark_error_emits _ id e' _ hjw
        refine ⟨emittedProgress (whisper_lines_run id (update_job_and_emit idx id
            (fun j => { j with stage := "transcribe", progress := (3/10 : ℚ) })).1
            env.stdoutLines).2 ++ [jw.progress], ?_, ?_⟩
        · rw [emittedProgress_append, emittedProgress_append, emittedProgress_append,
            hupd.1, hm]
          simp [emittedProgress]
        · exact chain_snoc _ _ _ hc (le_of_eq hlast)
      · -- success: the completion transition emits progress 1
        have hfin := finish_job_emits env _ id jobDir _ hjw
        refine ⟨emittedProgress (whisper_lines_run id (update_job_and_emit idx id
            (fun j => { j with stage := "transcribe", progress := (3/10 : ℚ) })).1
            env.stdoutLines).2 ++ [1], ?_, ?_⟩
        · rw [emittedProgress_append, emittedProgress_append, emittedProgress_append,
            hupd.1, hfin]
          simp [emittedProgress]
        · refine chain_snoc _ _ _ hc ?_
          rw [hlast]
          have h910 := hbound (by norm_num)
          linarith

/-- C5 (amended): within one `process_job` run the emitted `progress`
sequence is monotonically non-decreasing (0.1 at convert, 0.3 at
transcribe start, the mapped transcribe updates, 1.0 at done), provided
the clamped percentages parsed from the subprocess's stdout form a
non-decreasing sequence.  The unconditional claim is refuted by
`progress_monotonic_counterexample`. -/
theorem progress_monotonic_in_run (env : PipelineEnv) (idx : JobIndex) (id : String)
    (h : List.Chain' (· ≤ ·) (env.stdoutLines.filterMap parse_progress_from_line)) :
    List.Chain' (· ≤ ·) (emittedProgress (process_job env idx id).2.1) := by
  simp only [process_job]
  split
  next hr => simp [emittedProgress]
  next j1 hr =>
    have hs := mutateFirst_spec id startMut (fun j => rfl) idx.jobs
    have hfind1 : findJob ⟨(mutateFirst id startMut idx.jobs).2⟩ id = some j1 := by
      rw [findJob]
      show (mutateFirst id startMut idx.jobs).2.find? (fun j => j.id == id) = some j1
      rw [hs.2.1, ← hs.1, hr]
    have hprog1 : j1.progress = 1/10 := by
      have hmap : Option.map startMut (idx.jobs.find? (fun j => j.id == id)) = some j1 := by
        rw [← hs.1, hr]
      obtain ⟨jo, _, hjo2⟩ := Option.map_eq_some'.mp hmap
      rw [← hjo2]
      rfl
    have hstart : emittedProgress
        [Action.save ⟨(mutateFirst id startMut idx.jobs).2⟩, Action.emitUpdated j1,
          Action.emitLog id "Worker started."] = [j1.progress] := by
      simp [emittedProgress]
    split
    · -- missing job directory: only the start transition was emitted
      rw [hstart]
      exact List.chain'_singleton _
    · split
      · -- ffmpeg resolution failed
        rename_i e he
        rw [emittedProgress_append, hstart, mark_error_emits _ id e _ hfind1]
        simp only [List.cons_append, List.nil_append, List.chain'_cons,
          List.chain'_singleton]
        exact ⟨le_refl _, trivial⟩
      · split
        · -- wav already present: straight to after_convert
          obtain ⟨l, hl, hcl⟩ := after_convert_chain env _ id _ _ hfind1 h
          rw [emittedProgress_append, hstart, hl]
          simp only [List.cons_append, List.nil_append, List.chain'_cons]
          exact ⟨by rw [hprog1]; norm_num, hcl⟩
        · split
          · -- conversion failed
            rename_i e he
            rw [emittedProgress_append, emittedProgress_append, hstart]
            rw [mark_error_emits _ id e _ hfind1]
            simp only [emittedProgress, List.filterMap_cons, List.filterMap_nil,
              List.cons_append, List.nil_append, List.append_nil, List.chain'_cons,
              List.chain'_singleton]
            exact ⟨le_refl _, trivial⟩
          · -- conversion succeeded
            obtain ⟨l, hl, hcl⟩ := after_convert_chain env _ id _ _ hfind1 h
            rw [emittedProgress_append, emittedProgress_append, hstart, hl]
            have hlog : emittedProgress
                [Action.emitLog id "Converting audio to 16k mono WAV..."] = [] := rfl
            rw [hlog]
            simp only [List.cons_append, List.nil_append, List.append_nil,
              List.chain'_cons]
            exact ⟨by rw [hprog1]; norm_num, hcl⟩

/-- A fully successful pipeline environment whose subprocess reports 80%
and then 50%. -/
def sampleEnv : PipelineEnv := {
  model_size := "small", language := some "en",
  enable_summarization := true, auto_summarize := false,
  ffmpegRes := .ok "third_party/ffmpeg/bin/ffmpeg",
  convertRes := .ok (),
  whisperRes := .ok ("third_party/whisper/bin/whisper",
    "third_party/whisper/models/ggml-small.bin"),
  whisperSpawn := .ok (),
  whisperExitOk := true,
  stdoutLines := ["80%", "50%"],
  stderrLines := [],
  fileExists := fun _ => true }

/-- C5 counterexample: when the subprocess reports 80% and then 50%, the
run writes progress 0.78 and then 0.60 — the progress sequence of a single
`process_job` run is *not* monotonically non-decreasing for every possible
sequence of subprocess-reported percentages. -/
theorem progress_monotonic_counterexample :
    ¬ List.Chain' (· ≤ ·)
      (emittedProgress (process_job sampleEnv sampleIndex "job_1").2.1) := by
  have htr : emittedProgress (process_job sampleEnv sampleIndex "job_1").2.1
      = [1/10, 3/10, mapTranscribeProgress 80, mapTranscribeProgress 80,
          mapTranscribeProgress 50, mapTranscribeProgress 50, 1] := rfl
  rw [htr]
  intro hcon
  simp only [List.chain'_cons, List.chain'_singleton] at hcon
  have hbad : mapTranscribeProgress 80 ≤ mapTranscribeProgress 50 := hcon.2.2.2.1
  unfold mapTranscribeProgress at hbad
  norm_num at hbad

/-- The same environment with a non-decreasing report sequence. -/
def sampleEnvInc : PipelineEnv := { sampleEnv with stdoutLines := ["10%", "50%"] }

/-- Witness for the amended C5 on a concrete monotone report sequence. -/
theorem progress_monotonic_in_run_witness :
    List.Chain' (· ≤ ·) (sampleEnvInc.stdoutLines.filterMap parse_progress_from_line)
      ∧ List.Chain' (· ≤ ·)
          (emittedProgress (process_job sampleEnvInc sampleIndex "job_1").2.1) := by
  have hval : sampleEnvInc.stdoutLines.filterMap parse_progress_from_line
      = [10, 50] := rfl
  have hch : List.Chain' (· ≤ ·)
      (sampleEnvInc.stdoutLines.filterMap parse_progress_from_line) := by
    rw [hval]
    simp only [List.chain'_cons, List.chain'_singleton]
    norm_num
  exact ⟨hch, progress_monotonic_in_run sampleEnvInc sampleIndex "job_1" hch⟩

/-! ## C1: single consumer, strict FIFO execution, errors do not stop it -/

/-- The job ids whose `process_job` invocation the consumer has started,
in trace order. -/
def startedIds (tr : List WEvent) : List String :=
  tr.filterMap (fun e => match e with | .jobStart id => some id | _ => none)

theorem startedIds_append (a b : List WEvent) :
    startedIds (a ++ b) = startedIds a ++ startedIds b := by
  simp [startedIds, List.filterMap_append]

theorem startedIds_runEvents (env : String → PipelineEnv) (idx : JobIndex) (id : String) :
    startedIds (runEvents env idx id) = [id] := by
  simp only [runEvents, startedIds, List.filterMap_append, List.filterMap_cons,
    List.filterMap_nil]
  rw [List.filterMap_map]
  have h1 : (List.filterMap ((fun e => match e with
      | WEvent.jobStart id => some id
      | _ => none) ∘ WEvent.act) (process_job (env id) idx id).2.1) = [] := by
    rw [List.filterMap_eq_nil]
    intro a _
    rfl
  rw [h1]
  split <;> rfl

theorem worker_loop_parts (env : String → PipelineEnv) (q1 q2 : List String) :
    ∀ idx : JobIndex,
    (worker_loop env idx (q1 ++ q2)).2
        = (worker_loop env idx q1).2
          ++ (worker_loop env (worker_loop env idx q1).1 q2).2
      ∧ (worker_loop env idx (q1 ++ q2)).1
          = (worker_loop env (worker_loop env idx q1).1 q2).1 := by
  induction q1 with
  | nil =>
    intro idx
    simp [worker_loop]
  | cons id rest ih =>
    intro idx
    simp only [List.cons_append, worker_loop, List.append_eq]
    rw [(ih _).1, (ih _).2]
    exact ⟨by rw [List.append_assoc], rfl⟩

theorem startedIds_worker_loop (env : String → PipelineEnv) :
    ∀ (q : List String) (idx : JobIndex),
    startedIds (worker_loop env idx q).2 = q := by
  intro q
  induction q with
  | nil => intro idx; rfl
  | cons id rest ih =>
    intro idx
    simp only [worker_loop]
    rw [startedIds_append, startedIds_runEvents, ih]
    rfl

/-- C1: the worker queue has a single consumer executing jobs strictly one
at a time in enqueue order.  For any ids A enqueued before B, the event
trace decomposes so that A's complete `process_job` run (its `jobStart` up
to its `jobEnd`, with any worker-error log after it) lies strictly before
B's run begins; and the consumer starts every enqueued id exactly once in
enqueue order — in particular a `process_job` error (reported as a
`job:log` event by the loop) never stops it from starting the next id. -/
theorem worker_queue_sequential (env : String → PipelineEnv) (idx : JobIndex)
    (q1 q2 q3 : List String) (A B : String) :
    (∃ (t1 t2 t3 : List WEvent) (stA stB : JobIndex),
        (worker_loop env idx (q1 ++ A :: (q2 ++ B :: q3))).2
          = t1 ++ (runEvents env stA A ++ (t2 ++ (runEvents env stB B ++ t3))))
      ∧ startedIds (worker_loop env idx (q1 ++ A :: (q2 ++ B :: q3))).2
          = q1 ++ A :: (q2 ++ B :: q3) := by
  constructor
  · have h1 := worker_loop_parts env q1 (A :: (q2 ++ B :: q3)) idx
    set stA := (worker_loop env idx q1).1 with hstA
    have h2 : (worker_loop env stA (A :: (q2 ++ B :: q3))).2
        = runEvents env stA A
          ++ (worker_loop env (process_job (env A) stA A).1 (q2 ++ B :: q3)).2 := by
      simp only [worker_loop]
    have h3 := worker_loop_parts env q2 (B :: q3) (process_job (env A) stA A).1
    set stB := (worker_loop env (process_job (env A) stA A).1 q2).1 with hstB
    have h4 : (worker_loop env stB (B :: q3)).2
        = runEvents env stB B
          ++ (worker_loop env (process_job (env B) stB B).1 q3).2 := by
      simp only [worker_loop]
    refine ⟨(worker_loop env idx q1).2,
      (worker_loop env (process_job (env A) stA A).1 q2).2,
      (worker_loop env (process_job (env B) stB B).1 q3).2, stA, stB, ?_⟩
    rw [h1.1, h2, h3.1, h4]
  · exact startedIds_worker_loop env _ idx

/-! ## C6: missing whisper output degrades to the stub `done` path -/

theorem whisper_lines_find (id : String) (lines : List String) :
    ∀ (idx : JobIndex) (j0 : Job), findJob idx id = some j0 →
    ∃ j1 : Job, findJob (whisper_lines_run id idx lines).1 id = some j1 := by
  induction lines with
  | nil =>
    intro idx j0 h0
    exact ⟨j0, h0⟩
  | cons line rest ih =>
    intro idx j0 h0
    cases hp : parse_progress_from_line line with
    | none =>
      simp only [whisper_lines_run, whisper_line_step, hp]
      have hstep := append_job_log_of_found idx id line j0 h0
      exact ih _ _ hstep.2
    | some q =>
      simp only [whisper_lines_run, whisper_line_step, hp]
      have hf : ∀ j : Job,
          Job.id { j with stage := "transcribe", progress := mapTranscribeProgress q }
            = j.id := fun _ => rfl
      have hupd := update_job_and_emit_of_found idx id
        (fun j => { j with stage := "transcribe", progress := mapTranscribeProgress q })
        hf j0 h0
      have hstep := append_job_log_of_found _ id line _ hupd.2
      exact ih _ _ hstep.2

theorem finish_job_stub (env : PipelineEnv) (idx : JobIndex) (id jobDir : String)
    (jw : Job) (hw : findJob idx id = some jw)
    (hmiss : (!env.fileExists (pjoin jobDir "whisper" ++ ".txt")
        || !env.fileExists (pjoin jobDir "whisper" ++ ".json")) = true) :
    findJob (finish_job env idx id jobDir).1 id
        = some (pushLogJob { jw with
            progress := 1, status := "done", stage := "done",
            transcript_txt_path := pjoin jobDir "transcript.txt",
            transcript_json_path := pjoin jobDir "segments.json",
            transcript_srt_path := pjoin jobDir "transcript.srt",
            md_preview := some "Stub transcript from Rust core.",
            summary_status := some "skipped" } "Worker finished (stub).")
      ∧ Action.writeFile (pjoin jobDir "transcript.txt") stubTranscript
          ∈ (finish_job env idx id jobDir).2
      ∧ Action.writeFile (pjoin jobDir "segments.json") stubSegmentsJson
          ∈ (finish_job env idx id jobDir).2
      ∧ Action.writeFile (pjoin jobDir "transcript.srt") ""
          ∈ (finish_job env idx id jobDir).2 := by
  rw [findJob] at hw
  simp only [finish_job, hmiss, if_true]
  have hf : ∀ j : Job,
      Job.id (pushLogJob { j with
        progress := 1, status := "done", stage := "done",
        transcript_txt_path := (write_stub_artifacts jobDir).1.1,
        transcript_json_path := (write_stub_artifacts jobDir).1.2.1,
        transcript_srt_path := (write_stub_artifacts jobDir).1.2.2,
        md_preview := some "Stub transcript from Rust core.",
        summary_status := some "skipped" } "Worker finished (stub).") = j.id :=
    fun _ => rfl
  have hs := mutateFirst_spec id
    (fun j => pushLogJob { j with
      progress := 1, status := "done", stage := "done",
      transcript_txt_path := (write_stub_artifacts jobDir).1.1,
      transcript_json_path := (write_stub_artifacts jobDir).1.2.1,
      transcript_srt_path := (write_stub_artifacts jobDir).1.2.2,
      md_preview := some "Stub transcript from Rust core.",
      summary_status := some "skipped" } "Worker finished (stub).") hf idx.jobs
  have h1 : (mutateFirst id (fun j => pushLogJob { j with
      progress := 1, status := "done", stage := "done",
      transcript_txt_path := (write_stub_artifacts jobDir).1.1,
      transcript_json_path := (write_stub_artifacts jobDir).1.2.1,
      transcript_srt_path := (write_stub_artifacts jobDir).1.2.2,
      md_preview := some "Stub transcript from Rust core.",
      summary_status := some "skipped" } "Worker finished (stub).") idx.jobs).1
      = some (pushLogJob { jw with
          progress := 1, status := "done", stage := "done",
          transcript_txt_path := (write_stub_artifacts jobDir).1.1,
          transcript_json_path := (write_stub_artifacts jobDir).1.2.1,
          transcript_srt_path := (write_stub_artifacts jobDir).1.2.2,
          md_preview := some "Stub transcript from Rust core.",
          summary_status := some "skipped" } "Worker finished (stub).") := by
    rw [hs.1, hw]
    rfl
  have h2 := hs.2.1
  rw [hw] at h2
  refine ⟨?_, ?_, ?_, ?_⟩
  · simp only [h1, findJob]
    exact h2
  all_goals
    split <;> simp [write_stub_artifacts]

/-- C6: if the subprocess spawn and exit succeed but the expected
`whisper.txt` or `whisper.json` output is absent, `process_job` still
drives the job to status `done`, stage `done`, progress 1.0, records the
placeholder transcript/segments/subtitle artifact triple (whose writes
appear in the trace), and sets the distinguishable `md_preview` marker
`"Stub transcript from Rust core."` (not the normal-path
`"Transcript ready."`), rather than transitioning the job to `error`. -/
theorem stub_fallback_done (env : PipelineEnv) (idx : JobIndex) (id : String)
    (j1 : Job) (jobDir fp wbin wmodel : String)
    (h1 : findJob idx id = some j1)
    (hpd : parentDir j1.audio_path = some jobDir)
    (hff : env.ffmpegRes = .ok fp)
    (hwav : env.fileExists (pjoin jobDir "audio.wav") = true)
    (hwr : env.whisperRes = .ok (wbin, wmodel))
    (hsp : env.whisperSpawn = .ok ())
    (hexit : env.whisperExitOk = true)
    (hmiss : env.fileExists (pjoin jobDir "whisper" ++ ".txt") = false
        ∨ env.fileExists (pjoin jobDir "whisper" ++ ".json") = false) :
    ∃ j' : Job, findJob (process_job env idx id).1 id = some j'
      ∧ j'.status = "done" ∧ j'.stage = "done" ∧ j'.progress = 1
      ∧ j'.transcript_txt_path = pjoin jobDir "transcript.txt"
      ∧ j'.transcript_json_path = pjoin jobDir "segments.json"
      ∧ j'.transcript_srt_path = pjoin jobDir "transcript.srt"
      ∧ j'.md_preview = some "Stub transcript from Rust core."
      ∧ j'.md_preview ≠ some "Transcript ready."
      ∧ j'.status ≠ "error"
      ∧ j'.summary_status = some "skipped"
      ∧ Action.writeFile (pjoin jobDir "transcript.txt") stubTranscript
          ∈ (process_job env idx id).2.1
      ∧ Action.writeFile (pjoin jobDir "segments.json") stubSegmentsJson
          ∈ (process_job env idx id).2.1
      ∧ Action.writeFile (pjoin jobDir "transcript.srt") ""
          ∈ (process_job env idx id).2.1 := by
  have hmiss' : (!env.fileExists (pjoin jobDir "whisper" ++ ".txt")
      || !env.fileExists (pjoin jobDir "whisper" ++ ".json")) = true := by
    rcases hmiss with hm | hm <;> simp [hm]
  rw [findJob] at h1
  simp only [process_job]
  split
  next hr =>
    rw [mutateFirst_fst, h1] at hr
    simp at hr
  next jA hr =>
    rw [mutateFirst_fst, h1, Option.map_some'] at hr
    have hjA := Option.some.inj hr
    subst hjA
    have hfindA : findJob ⟨(mutateFirst id startMut idx.jobs).2⟩ id
        = some (startMut j1) := by
      have hs := mutateFirst_spec id startMut (fun j => rfl) idx.jobs
      rw [findJob]
      show (mutateFirst id startMut idx.jobs).2.find? (fun j => j.id == id)
          = some (startMut j1)
      rw [hs.2.1, h1]
      rfl
    have hpdA : parentDir (startMut j1).audio_path = some jobDir := hpd
    split
    next heq =>
      rw [hpdA] at heq
      cases heq
    next jobDir' heq =>
      rw [hpdA] at heq
      have hjd := Option.some.inj heq
      subst hjd
      split
      next e heq2 =>
        rw [hff] at heq2
        cases heq2
      next fp' heq2 =>
        rw [if_pos hwav]
        simp only [after_convert]
        have hfb : ∀ j : Job,
            Job.id { j with stage := "transcribe", progress := (3/10 : ℚ) } = j.id :=
          fun _ => rfl
        have hupd := update_job_and_emit_of_found _ id
          (fun j => { j with stage := "transcribe", progress := (3/10 : ℚ) })
          hfb _ hfindA
        split
        next e heq3 =>
          rw [hwr] at heq3
          cases heq3
        next wp heq3 =>
          simp only [run_whisper_cpp, hsp, hexit, if_true]
          obtain ⟨jw, hjw⟩ := whisper_lines_find id env.stdoutLines _ _ hupd.2
          have hfin := finish_job_stub env _ id jobDir jw hjw hmiss'
          refine ⟨_, hfin.1, rfl, rfl, rfl, rfl, rfl, rfl, rfl, by simp [pushLogJob],
            by simp [pushLogJob], rfl, ?_, ?_, ?_⟩
          · simp only [List.mem_append]
            exact Or.inr (Or.inr hfin.2.1)
          · simp only [List.mem_append]
            exact Or.inr (Or.inr hfin.2.2.1)
          · simp only [List.mem_append]
            exact Or.inr (Or.inr hfin.2.2.2)

/-- Success environment whose whisper produces no output files: only the
converted wav exists on disk. -/
def sampleEnvStub : PipelineEnv := { sampleEnv with
  stdoutLines := [],
  fileExists := fun p => p == "jobs/job_1/audio.wav" }

/-- Witness for C6 at a concrete run with the output files absent. -/
theorem stub_fallback_done_witness :
    (sampleEnvStub.fileExists (pjoin "jobs/job_1" "whisper" ++ ".txt") = false
        ∧ findJob sampleIndex "job_1" = some sampleJob)
      ∧ ∃ j' : Job,
          findJob (process_job sampleEnvStub sampleIndex "job_1").1 "job_1" = some j'
            ∧ j'.status = "done" ∧ j'.stage = "done" ∧ j'.progress = 1
            ∧ j'.transcript_txt_path = pjoin "jobs/job_1" "transcript.txt"
            ∧ j'.transcript_json_path = pjoin "jobs/job_1" "segments.json"
            ∧ j'.transcript_srt_path = pjoin "jobs/job_1" "transcript.srt"
            ∧ j'.md_preview = some "Stub transcript from Rust core."
            ∧ j'.md_preview ≠ some "Transcript ready."
            ∧ j'.status ≠ "error"
            ∧ j'.summary_status = some "skipped"
            ∧ Action.writeFile (pjoin "jobs/job_1" "transcript.txt") stubTranscript
                ∈ (process_job sampleEnvStub sampleIndex "job_1").2.1
            ∧ Action.writeFile (pjoin "jobs/job_1" "segments.json") stubSegmentsJson
                ∈ (process_job sampleEnvStub sampleIndex "job_1").2.1
            ∧ Action.writeFile (pjoin "jobs/job_1" "transcript.srt") ""
                ∈ (process_job sampleEnvStub sampleIndex "job_1").2.1 :=
  ⟨⟨by decide, by decide⟩,
    stub_fallback_done sampleEnvStub sampleIndex "job_1" sampleJob "jobs/job_1"
      "third_party/ffmpeg/bin/ffmpeg" "third_party/whisper/bin/whisper"
      "third_party/whisper/models/ggml-small.bin"
      (by decide) (by decide) rfl (by decide) rfl rfl rfl (Or.inl (by decide))⟩

/-! ## C7: starting a download coalesces with an in-flight one
(commands.rs lines 1908-1970 and 2168-2256) -/

/-- Mirror of the Rust `ModelDownloadStatus` struct (commands.rs lines
79-89). -/
structure ModelDownloadStatus where
  state : String
  model_size : String
  repo_id : String
  total_bytes : ℕ
  downloaded_bytes : ℕ
  message : Option String
  started_at : Option ℕ
  finished_at : Option ℕ
deriving DecidableEq

/-- Mirror of `model_filename` (commands.rs lines 558-572). -/
def model_filename (model_size : String) : Except String String :=
  match model_size with
  | "tiny" => .ok "ggml-tiny.bin"
  | "base" => .ok "ggml-base.bin"
  | "small" => .ok "ggml-small.bin"
  | "medium" => .ok "ggml-medium.bin"
  | "large-v3" => .ok "ggml-large-v3.bin"
  | other =>
    .error ("Unknown model size: " ++ other ++ ". Expected tiny/base/small/medium/large-v3.")

/-- Mirror of `model_url` (commands.rs lines 574-579). -/
def model_url (model_size : String) : Except String String :=
  (model_filename model_size).map (fun filename =>
    "https://huggingface.co/ggerganov/whisper.cpp/resolve/main/" ++ filename
      ++ "?download=true")

def whisper_binary_status_key : String := "whisper-binary"

/-- `HashMap` lookup on the association-list model of the status map. -/
def lookupStatus (m : List (String × ModelDownloadStatus)) (k : String) :
    Option ModelDownloadStatus :=
  (m.find? (fun p => p.1 == k)).map (fun p => p.2)

/-- `HashMap::insert`: the new binding replaces any existing one. -/
def insertStatus (m : List (String × ModelDownloadStatus)) (k : String)
    (v : ModelDownloadStatus) : List (String × ModelDownloadStatus) :=
  (k, v) :: m.filter (fun p => p.1 != k)

/-- Mirror of `start_model_download` (commands.rs lines 1908-1970).  `ts`
stands for `now_ts()`; the returned flag records whether a background
download task was spawned.  The filesystem path computations are elided. -/
def start_model_download (statuses : List (String × ModelDownloadStatus))
    (model_size : String) (ts : ℕ) :
    Except String (ModelDownloadStatus × List (String × ModelDownloadStatus) × Bool) :=
  match model_filename model_size with
  | .error e => .error e
  | .ok filename =>
    match model_url model_size with
    | .error e => .error e
    | .ok _url =>
      let existingDownloading : Option ModelDownloadStatus :=
        match lookupStatus statuses model_size with
        | some existing =>
          if existing.state == "downloading" then some existing else none
        | none => none
      match existingDownloading with
      | some existing => .ok (existing, statuses, false)
      | none =>
        let status : ModelDownloadStatus := {
          state := "downloading", model_size := model_size, repo_id := "whisper.cpp",
          total_bytes := 0, downloaded_bytes := 0,
          message := some ("Downloading " ++ filename),
          started_at := some ts, finished_at := none }
        .ok (status, insertStatus statuses model_size status, true)

/-- Mirror of `start_whisper_download` (commands.rs lines 2168-2256).
`urlRes` is the (network-dependent) result of
`resolve_whisper_download_url`; directory creation and the tmp-file
removals are elided. -/
def start_whisper_download (urlRes : Except String String)
    (statuses : List (String × ModelDownloadStatus)) (ts : ℕ) :
    Except String (ModelDownloadStatus × List (String × ModelDownloadStatus) × Bool) :=
  match urlRes with
  | .error e => .error e
  | .ok _url =>
    let key := whisper_binary_status_key
    let existingDownloading : Option ModelDownloadStatus :=
      match lookupStatus statuses key with
      | some existing =>
        if existing.state == "downloading" then some existing else none
      | none => none
    match existingDownloading with
    | some existing => .ok (existing, statuses, false)
    | none =>
      let status : ModelDownloadStatus := {
        state := "downloading", model_size := key, repo_id := "whisper.cpp",
        total_bytes := 0, downloaded_bytes := 0,
        message := some "Downloading whisper.cpp binary",
        started_at := some ts, finished_at := none }
      .ok (status, insertStatus statuses key status, true)

/-- C7: if the artifact's status-map entry is already `downloading`, both
download starters return that in-flight status unchanged, leave the map
untouched and spawn no second background task; otherwise they record a
fresh `downloading` status carrying the start timestamp, install it in the
map, and launch a background task (returning the new status immediately). -/
theorem start_download_idempotent (statuses : List (String × ModelDownloadStatus))
    (model_size : String) (ts : ℕ) (urlRes : Except String String) :
    (∀ filename existing, model_filename model_size = .ok filename →
        lookupStatus statuses model_size = some existing →
        existing.state = "downloading" →
        start_model_download statuses model_size ts = .ok (existing, statuses, false))
      ∧ (∀ filename, model_filename model_size = .ok filename →
          (∀ existing, lookupStatus statuses model_size = some existing →
            existing.state ≠ "downloading") →
          ∃ status : ModelDownloadStatus,
            start_model_download statuses model_size ts
                = .ok (status, insertStatus statuses model_size status, true)
              ∧ status.state = "downloading" ∧ status.started_at = some ts)
      ∧ (∀ u existing, urlRes = .ok u →
          lookupStatus statuses whisper_binary_status_key = some existing →
          existing.state = "downloading" →
          start_whisper_download urlRes statuses ts = .ok (existing, statuses, false))
      ∧ (∀ u, urlRes = .ok u →
          (∀ existing, lookupStatus statuses whisper_binary_status_key = some existing →
            existing.state ≠ "downloading") →
          ∃ status : ModelDownloadStatus,
            start_whisper_download urlRes statuses ts
                = .ok (status, insertStatus statuses whisper_binary_status_key status, true)
              ∧ status.state = "downloading" ∧ status.started_at = some ts) := by
  refine ⟨?_, ?_, ?_, ?_⟩
  · intro filename existing hfn hlk hdl
    have hdl' : (existing.state == "downloading") = true := by
      rw [hdl]
      rfl
    simp only [start_model_download, hfn, model_url, Except.map, hlk, hdl', if_true]
  · intro filename hfn hnot
    refine ⟨{
      state := "downloading", model_size := model_size, repo_id := "whisper.cpp",
      total_bytes := 0, downloaded_bytes := 0,
      message := some ("Downloading " ++ filename),
      started_at := some ts, finished_at := none }, ?_, rfl, rfl⟩
    cases hlk : lookupStatus statuses model_size with
    | none =>
      simp only [start_model_download, hfn, model_url, Except.map, hlk]
    | some existing =>
      have hne := hnot existing hlk
      have hne' : (existing.state == "downloading") = false := by
        simpa using hne
      simp only [start_model_download, hfn, model_url, Except.map, hlk, hne',
        Bool.false_eq_true, if_false]
  · intro u existing hu hlk hdl
    have hdl' : (existing.state == "downloading") = true := by
      rw [hdl]
      rfl
    simp only [start_whisper_download, hu, hlk, hdl', if_true]
  · intro u hu hnot
    refine ⟨{
      state := "downloading", model_size := whisper_binary_status_key,
      repo_id := "whisper.cpp", total_bytes := 0, downloaded_bytes := 0,
      message := some "Downloading whisper.cpp binary",
      started_at := some ts, finished_at := none }, ?_, rfl, rfl⟩
    cases hlk : lookupStatus statuses whisper_binary_status_key with
    | none =>
      simp only [start_whisper_download, hu, hlk]
    | some existing =>
      have hne := hnot existing hlk
      have hne' : (existing.state == "downloading") = false := by
        simpa using hne
      simp only [start_whisper_download, hu, hlk, hne', Bool.false_eq_true, if_false]

/-- A status map with an in-flight download for the `small` model. -/
def sampleStatuses : List (String × ModelDownloadStatus) :=
  [("small",
    { state := "downloading", model_size := "small", repo_id := "whisper.cpp",
      total_bytes := 100, downloaded_bytes := 42,
      message := some "Downloading ggml-small.bin",
      started_at := some 1000, finished_at := none })]

/-- Witness for C7: a second `start_model_download` for the in-flight
`small` model returns the existing status and spawns nothing, while a
fresh `start_whisper_download` installs a new `downloading` status with
the start timestamp and spawns the task. -/
theorem start_download_idempotent_witness :
    (start_model_download sampleStatuses "small" 2000
        = .ok ((sampleStatuses.head (by decide)).2, sampleStatuses, false))
      ∧ ∃ status : ModelDownloadStatus,
          start_whisper_download (.ok "https://example.com/whisper.zip") sampleStatuses 2000
              = .ok (status, insertStatus sampleStatuses whisper_binary_status_key status, true)
            ∧ status.state = "downloading" ∧ status.started_at = some 2000 :=
  ⟨(start_download_idempotent sampleStatuses "small" 2000
      (.ok "https://example.com/whisper.zip")).1 "ggml-small.bin" _
      rfl (by decide) (by decide),
    (start_download_idempotent sampleStatuses "small" 2000
      (.ok "https://example.com/whisper.zip")).2.2.2 "https://example.com/whisper.zip"
      rfl (by decide)⟩

/-! ## C8: resolver failure message (commands.rs lines 488-556, 1025-1083) -/

/-- Boolean substring test on character lists. -/
def isSubList (pat : List Char) : List Char → Bool
  | [] => pat.isEmpty
  | c :: rest => pat.isPrefixOf (c :: rest) || isSubList pat rest

/-- `s` contains `pat` as a substring. -/
def containsSub (s pat : String) : Bool := isSubList pat.toList s.toList

/-- The environment the resolvers probe: environment variables, the
conventional directories (each `none` when unavailable), file existence,
the Mach-O magic-number check, and the transcoder's `-version` banner. -/
structure ResolverEnv where
  envWhisperPath : Option String
  envWhisperModel : Option String
  envFfmpegPath : Option String
  cwd : Option String
  cwdParents : List String
  resourceDir : Option String
  appDataDir : Option String
  exeDir : Option String
  pathExists : String → Bool
  isMachoFile : String → Bool
  ffmpegVersion : String → Except String String

/-- The whisper binary candidates of `resolve_whisper_paths`, in probe
order (commands.rs lines 500-539). -/
def whisper_bin_candidates (env : ResolverEnv) : List String :=
  ["third_party/whisper/bin/whisper", "third_party/whisper/bin/main"]
    ++ (match env.cwd with
        | some cwd => [pjoin cwd "third_party/whisper/bin/whisper",
            pjoin cwd "third_party/whisper/bin/main"]
        | none => [])
    ++ (match env.resourceDir with
        | some rd => [pjoin rd "whisper/bin/whisper", pjoin rd "whisper/bin/main"]
        | none => [])
    ++ (match env.appDataDir with
        | some ad => [pjoin ad "voicenote/whisper/bin/whisper",
            pjoin ad "voicenote/whisper/bin/main"]
        | none => [])
    ++ (match env.exeDir with
        | some dir => [pjoin dir "whisper", pjoin dir "main"]
        | none => [])

/-- The whisper model candidates of `resolve_whisper_paths`, in probe
order. -/
def whisper_model_candidates (env : ResolverEnv) (modelName : String) : List String :=
  ["third_party/whisper/models/" ++ modelName]
    ++ (match env.cwd with
        | some cwd => [pjoin cwd ("third_party/whisper/models/" ++ modelName)]
        | none => [])
    ++ (match env.resourceDir with
        | some rd => [pjoin rd ("whisper/models/" ++ modelName)]
        | none => [])
    ++ (match env.appDataDir with
        | some ad => [pjoin ad ("voicenote/models/" ++ modelName)]
        | none => [])
    ++ (match env.exeDir with
        | some dir => [pjoin dir ("../Resources/whisper/models/" ++ modelName)]
        | none => [])

/-- The fixed not-found message of `resolve_whisper_paths` (commands.rs
lines 550-555). -/
def whisperNotFoundMsg : String :=
  "Whisper binary/model not found. Provide whisper.cpp at third_party/whisper/bin/whisper and model at third_party/whisper/models/ggml-<size>.bin, or set VOICENOTE_WHISPER_PATH and VOICENOTE_WHISPER_MODEL."

/-- Mirror of `resolve_whisper_paths` (commands.rs lines 488-556): the
environment override wins only when both referenced paths exist; otherwise
the first existing Mach-O binary candidate and the first existing model
candidate are taken, and the fixed message is raised when either is
missing. -/
def resolve_whisper_paths (env : ResolverEnv) (model_size : String) :
    Except String (String × String) :=
  let envOverride : Option (String × String) :=
    match env.envWhisperPath, env.envWhisperModel with
    | some bp, some mp =>
      if env.pathExists bp && env.pathExists mp then some (bp, mp) else none
    | _, _ => none
  match envOverride with
  | some pair => .ok pair
  | none =>
    let modelName := "ggml-" ++ model_size ++ ".bin"
    let bin := (whisper_bin_candidates env).find?
      (fun p => env.pathExists p && env.isMachoFile p)
    let model := (whisper_model_candidates env modelName).find?
      (fun p => env.pathExists p)
    match bin, model with
    | some bin, some model => .ok (bin, model)
    | _, _ => .error whisperNotFoundMsg

/-- Mirror of `ensure_lgpl_ffmpeg` (commands.rs lines 1073-1083). -/
def ensure_lgpl_ffmpeg (env : ResolverEnv) (path : String) : Except String String :=
  match env.ffmpegVersion path with
  | .error e => .error ("Failed to run ffmpeg: " ++ e)
  | .ok text =>
    if containsSub text "--enable-gpl" || containsSub text "--enable-nonfree" then
      .error "FFmpeg build contains GPL/nonfree flags; please use LGPL build."
    else .ok path

/-- The ffmpeg candidates of `resolve_ffmpeg_path`, in probe order
(commands.rs lines 1033-1058); `cwdParents` are the successive
`Path::parent` results of the working directory. -/
def ffmpeg_candidates (env : ResolverEnv) : List String :=
  (match env.cwd with
   | some cwd =>
     [pjoin cwd "third_party/ffmpeg/bin/ffmpeg"]
       ++ ((cwd :: env.cwdParents).take 4).map
            (fun dir => pjoin dir "third_party/ffmpeg/bin/ffmpeg")
   | none => [])
  ++ (match env.resourceDir with
      | some rd => [pjoin rd "ffmpeg/bin/ffmpeg",
          pjoin rd "resources/ffmpeg/bin/ffmpeg",
          pjoin rd "third_party/ffmpeg/bin/ffmpeg"]
      | none => [])
  ++ (match env.appDataDir with
      | some ad => [pjoin ad "voicenote/ffmpeg/bin/ffmpeg"]
      | none => [])
  ++ (match env.exeDir with
      | some dir => [pjoin dir "../Resources/ffmpeg/bin/ffmpeg",
          pjoin dir "../Resources/resources/ffmpeg/bin/ffmpeg",
          pjoin dir "../Resources/third_party/ffmpeg/bin/ffmpeg"]
      | none => [])

/-- The fixed not-found message of `resolve_ffmpeg_path` (commands.rs
lines 1066-1070). -/
def ffmpegNotFoundMsg : String :=
  "FFmpeg not found. Provide an LGPL build at ./third_party/ffmpeg/bin/ffmpeg (see scripts/ffmpeg/build_macos_lgpl.sh) or set VOICENOTE_FFMPEG_PATH."

/-- Mirror of `resolve_ffmpeg_path` (commands.rs lines 1025-1071). -/
def resolve_ffmpeg_path (env : ResolverEnv) : Except String String :=
  let override : Option String :=
    match env.envFfmpegPath with
    | some p => if env.pathExists p then some p else none
    | none => none
  match override with
  | some p => ensure_lgpl_ffmpeg env p
  | none =>
    match (ffmpeg_candidates env).find? (fun p => env.pathExists p) with
    | some candidate => ensure_lgpl_ffmpeg env candidate
    | none => .error ffmpegNotFoundMsg

/-- A resolver environment with no overrides and no files on disk. -/
def emptyResolverEnv : ResolverEnv := {
  envWhisperPath := none, envWhisperModel := none, envFfmpegPath := none,
  cwd := none, cwdParents := [], resourceDir := none, appDataDir := none,
  exeDir := none, pathExists := fun _ => false, isMachoFile := fun _ => false,
  ffmpegVersion := fun _ => .error "No such file or directory" }

/-- C8 counterexample: with no overrides and nothing populated the
resolver does fail with a single error, but its fixed message does *not*
enumerate every probed path — the probed binary candidate
`third_party/whisper/bin/main` and the probed model candidate
`third_party/whisper/models/ggml-small.bin` are both absent from it. -/
theorem resolver_error_counterexample :
    resolve_whisper_paths emptyResolverEnv "small" = .error whisperNotFoundMsg
      ∧ "third_party/whisper/bin/main" ∈ whisper_bin_candidates emptyResolverEnv
      ∧ containsSub whisperNotFoundMsg "third_party/whisper/bin/main" = false
      ∧ "third_party/whisper/models/ggml-small.bin"
          ∈ whisper_model_candidates emptyResolverEnv "ggml-small.bin"
      ∧ containsSub whisperNotFoundMsg "third_party/whisper/models/ggml-small.bin"
          = false :=
  ⟨rfl, by decide, by decide, by decide, by decide⟩

/-- C8 (amended): with no usable environment override and no existing
candidate on disk, each resolver fails with one fixed error message that
names the primary conventional location and the environment-variable
override — it does not enumerate every probed path (see
`resolver_error_counterexample`). -/
theorem resolver_not_found_message (env : ResolverEnv) (model_size : String)
    (hb : ∀ p, env.pathExists p = false) :
    resolve_whisper_paths env model_size = .error whisperNotFoundMsg
      ∧ resolve_ffmpeg_path env = .error ffmpegNotFoundMsg
      ∧ containsSub whisperNotFoundMsg "third_party/whisper/bin/whisper" = true
      ∧ containsSub whisperNotFoundMsg "VOICENOTE_WHISPER_PATH" = true
      ∧ containsSub whisperNotFoundMsg "VOICENOTE_WHISPER_MODEL" = true
      ∧ containsSub ffmpegNotFoundMsg "third_party/ffmpeg/bin/ffmpeg" = true
      ∧ containsSub ffmpegNotFoundMsg "VOICENOTE_FFMPEG_PATH" = true := by
  refine ⟨?_, ?_, by decide, by decide, by decide, by decide, by decide⟩
  · have hover : (match env.envWhisperPath, env.envWhisperModel with
        | some bp, some mp =>
          if env.pathExists bp && env.pathExists mp then some (bp, mp) else none
        | _, _ => none) = (none : Option (String × String)) := by
      cases env.envWhisperPath <;> cases env.envWhisperModel <;> simp [hb]
    have hbin : (whisper_bin_candidates env).find?
        (fun p => env.pathExists p && env.isMachoFile p) = none :=
      List.find?_eq_none.mpr (fun p _ => by simp [hb])
    have hmodel : ∀ modelName, (whisper_model_candidates env modelName).find?
        (fun p => env.pathExists p) = none :=
      fun modelName => List.find?_eq_none.mpr (fun p _ => by simp [hb])
    simp only [resolve_whisper_paths, hover, hbin, hmodel]
  · have hover : (match env.envFfmpegPath with
        | some p => if env.pathExists p then some p else none
        | none => none) = (none : Option String) := by
      cases env.envFfmpegPath <;> simp [hb]
    have hcand : (ffmpeg_candidates env).find? (fun p => env.pathExists p) = none :=
      List.find?_eq_none.mpr (fun p _ => by simp [hb])
    simp only [resolve_ffmpeg_path, hover, hcand]

/-- Witness for the amended C8 on the empty environment. -/
theorem resolver_not_found_message_witness :
    resolve_whisper_paths emptyResolverEnv "small" = .error whisperNotFoundMsg
      ∧ resolve_ffmpeg_path emptyResolverEnv = .error ffmpegNotFoundMsg
      ∧ containsSub whisperNotFoundMsg "third_party/whisper/bin/whisper" = true
      ∧ containsSub whisperNotFoundMsg "VOICENOTE_WHISPER_PATH" = true
      ∧ containsSub whisperNotFoundMsg "VOICENOTE_WHISPER_MODEL" = true
      ∧ containsSub ffmpegNotFoundMsg "third_party/ffmpeg/bin/ffmpeg" = true
      ∧ containsSub ffmpegNotFoundMsg "VOICENOTE_FFMPEG_PATH" = true :=
  resolver_not_found_message emptyResolverEnv "small" (fun p => rfl)

/-! ## C9: segment extraction normalization (commands.rs lines 1499-1582) -/

/-- JSON documents; numbers are modelled as exact rationals. -/
inductive Json where
  | null
  | bool (b : Bool)
  | num (q : ℚ)
  | str (s : String)
  | arr (elems : List Json)
  | obj (fields : List (String × Json))

/-- Mirror of the `Segment` struct (commands.rs lines 64-69); `f32` is
modelled as `ℚ`. -/
structure Segment where
  start : ℚ
  «end» : ℚ
  text : String
deriving DecidableEq

/-- `serde_json::Value::get` on an object. -/
def jGet (j : Json) (key : String) : Option Json :=
  match j with
  | .obj fields => (fields.find? (fun p => p.1 == key)).map (fun p => p.2)
  | _ => none

/-- `Value::as_f64` (numbers only). -/
def asNum : Json → Option ℚ
  | .num q => some q
  | _ => none

/-- `Value::as_str`. -/
def asStr : Json → Option String
  | .str s => some s
  | _ => none

/-- `str::trim` over the character list (strip leading and trailing
whitespace). -/
def strTrim (s : String) : String :=
  String.mk (((s.data.dropWhile Char.isWhitespace).reverse.dropWhile
    Char.isWhitespace).reverse)

/-- One element of the `serde_json::from_str::<Vec<Segment>>` parse: an
object carrying numeric `start`/`end` and string `text` (extra fields are
ignored, as serde does by default). -/
def parseSegObj (j : Json) : Option Segment :=
  match (jGet j "start").bind asNum, (jGet j "end").bind asNum,
      (jGet j "text").bind asStr with
  | some s, some e, some t => some ⟨s, e, t⟩
  | _, _, _ => none

/-- `serde_json::from_str::<Vec<Segment>>` on the parsed document: the
flat-array shape, returned as-is (commands.rs lines 1516-1518). -/
def tryParseSegments (j : Json) : Option (List Segment) :=
  match j with
  | .arr elems => elems.mapM parseSegObj
  | _ => none

/-- One entry of the `{"segments": [...]}` shape (commands.rs lines
1524-1548): `start`/`end` taken directly, else `t0`/`t1` divided by 100
(centiseconds), missing values defaulting to 0 / `start`; entries with
empty trimmed text are omitted. -/
def segFromSegmentsEntry (seg : Json) : Option Segment :=
  let text := strTrim (((jGet seg "text").bind asStr).getD "")
  let start := (((jGet seg "start").bind asNum)
    <|> (((jGet seg "t0").bind asNum).map (fun v => v / 100))).getD 0
  let endv := (((jGet seg "end").bind asNum)
    <|> (((jGet seg "t1").bind asNum).map (fun v => v / 100))).getD start
  if text = "" then none else some ⟨start, endv, text⟩

/-- One entry of the `{"transcription": [...]}` shape (commands.rs lines
1552-1578): `offsets.from`/`offsets.to` are milliseconds, divided by 1000;
entries with empty trimmed text are omitted. -/
def segFromTranscriptionEntry (seg : Json) : Option Segment :=
  let text := strTrim (((jGet seg "text").bind asStr).getD "")
  let offsets := jGet seg "offsets"
  let startMs := ((offsets.bind (fun o => jGet o "from")).bind asNum).getD 0
  let endMs := ((offsets.bind (fun o => jGet o "to")).bind asNum).getD startMs
  if text = "" then none else some ⟨startMs / 1000, endMs / 1000, text⟩

/-- The parsing core of `get_segments` applied to the parsed transcript
JSON document (commands.rs lines 1516-1581): try the flat `Vec<Segment>`
shape, then `{"segments": [...]}`, then `{"transcription": [...]}`. -/
def get_segments_from_json (doc : Json) : Except String (List Segment) :=
  match tryParseSegments doc with
  | some segments => .ok segments
  | none =>
    match jGet doc "segments" with
    | some (.arr segs) => .ok (segs.filterMap segFromSegmentsEntry)
    | _ =>
      match jGet doc "transcription" with
      | some (.arr segs) => .ok (segs.filterMap segFromTranscriptionEntry)
      | _ => .error "segments not found in transcript json"

def mkSegJson (s e : ℚ) (t : String) : Json :=
  .obj [("start", .num s), ("end", .num e), ("text", .str t)]

/-- The flat-array transcript shape. -/
def flatDoc (es : List (ℚ × ℚ × String)) : Json :=
  .arr (es.map (fun x => mkSegJson x.1 x.2.1 x.2.2))

/-- The `{"segments": [...]}` shape with `start`/`end` in seconds. -/
def segmentsDocSE (es : List (ℚ × ℚ × String)) : Json :=
  .obj [("segments", .arr (es.map (fun x => mkSegJson x.1 x.2.1 x.2.2)))]

/-- The `{"segments": [...]}` shape carrying only `t0`/`t1` in
centiseconds. -/
def segmentsDocT0T1 (es : List (ℚ × ℚ × String)) : Json :=
  .obj [("segments", .arr (es.map (fun x =>
    Json.obj [("t0", .num (x.1 * 100)), ("t1", .num (x.2.1 * 100)),
      ("text", .str x.2.2)])))]

/-- The `{"transcription": [...]}` shape with millisecond offsets. -/
def transcriptionDoc (es : List (ℚ × ℚ × String)) : Json :=
  .obj [("transcription", .arr (es.map (fun x =>
    Json.obj [("text", .str x.2.2),
      ("offsets", Json.obj [("from", .num (x.1 * 1000)), ("to", .num (x.2.1 * 1000))])])))]

def mkSegs (es : List (ℚ × ℚ × String)) : List Segment :=
  es.map (fun x => ⟨x.1, x.2.1, x.2.2⟩)

theorem tryParse_flatDoc (es : List (ℚ × ℚ × String)) :
    tryParseSegments (flatDoc es) = some (mkSegs es) := by
  simp only [tryParseSegments, flatDoc]
  induction es with
  | nil => rfl
  | cons x xs ih =>
    simp only [List.map_cons, List.mapM_cons, ih]
    rfl

theorem segFromSegmentsEntry_direct (s e : ℚ) (t : String)
    (ht : strTrim t = t) (hne : t ≠ "") :
    segFromSegmentsEntry (mkSegJson s e t) = some ⟨s, e, t⟩ := by
  have h1 : jGet (mkSegJson s e t) "text" = some (.str t) := rfl
  have h2 : jGet (mkSegJson s e t) "start" = some (.num s) := rfl
  have h3 : jGet (mkSegJson s e t) "end" = some (.num e) := rfl
  simp only [segFromSegmentsEntry, h1, h2, h3, asNum, asStr, Option.some_bind,
    Option.getD_some, Option.some_orElse, ht]
  rw [if_neg hne]

theorem segmentsSE_entries (es : List (ℚ × ℚ × String))
    (h : ∀ x ∈ es, strTrim x.2.2 = x.2.2 ∧ x.2.2 ≠ "") :
    (es.map (fun x => mkSegJson x.1 x.2.1 x.2.2)).filterMap segFromSegmentsEntry
      = mkSegs es := by
  induction es with
  | nil => rfl
  | cons x xs ih =>
    obtain ⟨ht, hne⟩ := h x (List.mem_cons_self x xs)
    have hx := segFromSegmentsEntry_direct x.1 x.2.1 x.2.2 ht hne
    simp only [List.map_cons, List.filterMap_cons, hx]
    rw [ih (fun y hy => h y (List.mem_cons_of_mem x hy))]
    rfl

theorem segFromSegmentsEntry_t0t1 (s e : ℚ) (t : String)
    (ht : strTrim t = t) (hne : t ≠ "") :
    segFromSegmentsEntry (Json.obj [("t0", .num (s * 100)), ("t1", .num (e * 100)),
      ("text", .str t)]) = some ⟨s, e, t⟩ := by
  have h100 : (100 : ℚ) ≠ 0 := by norm_num
  have h1 : jGet (Json.obj [("t0", .num (s * 100)), ("t1", .num (e * 100)),
      ("text", .str t)]) "text" = some (.str t) := rfl
  have h2 : jGet (Json.obj [("t0", .num (s * 100)), ("t1", .num (e * 100)),
      ("text", .str t)]) "start" = none := rfl
  have h3 : jGet (Json.obj [("t0", .num (s * 100)), ("t1", .num (e * 100)),
      ("text", .str t)]) "end" = none := rfl
  have h4 : jGet (Json.obj [("t0", .num (s * 100)), ("t1", .num (e * 100)),
      ("text", .str t)]) "t0" = some (.num (s * 100)) := rfl
  have h5 : jGet (Json.obj [("t0", .num (s * 100)), ("t1", .num (e * 100)),
      ("text", .str t)]) "t1" = some (.num (e * 100)) := rfl
  simp only [segFromSegmentsEntry, h1, h2, h3, h4, h5, asNum, asStr, Option.some_bind,
    Option.none_bind, Option.map_some', Option.none_orElse, Option.getD_some, ht,
    mul_div_cancel_right₀ _ h100]
  rw [if_neg hne]

theorem segmentsT0T1_entries (es : List (ℚ × ℚ × String))
    (h : ∀ x ∈ es, strTrim x.2.2 = x.2.2 ∧ x.2.2 ≠ "") :
    (es.map (fun x => Json.obj [("t0", .num (x.1 * 100)), ("t1", .num (x.2.1 * 100)),
        ("text", .str x.2.2)])).filterMap segFromSegmentsEntry
      = mkSegs es := by
  induction es with
  | nil => rfl
  | cons x xs ih =>
    obtain ⟨ht, hne⟩ := h x (List.mem_cons_self x xs)
    have hx := segFromSegmentsEntry_t0t1 x.1 x.2.1 x.2.2 ht hne
    simp only [List.map_cons, List.filterMap_cons, hx]
    rw [ih (fun y hy => h y (List.mem_cons_of_mem x hy))]
    rfl

theorem segFromTranscriptionEntry_offsets (s e : ℚ) (t : String)
    (ht : strTrim t = t) (hne : t ≠ "") :
    segFromTranscriptionEntry (Json.obj [("text", .str t),
      ("offsets", Json.obj [("from", .num (s * 1000)), ("to", .num (e * 1000))])])
      = some ⟨s, e, t⟩ := by
  have h1000 : (1000 : ℚ) ≠ 0 := by norm_num
  have h1 : jGet (Json.obj [("text", .str t),
      ("offsets", Json.obj [("from", .num (s * 1000)), ("to", .num (e * 1000))])])
      "text" = some (.str t) := rfl
  have h2 : jGet (Json.obj [("text", .str t),
      ("offsets", Json.obj [("from", .num (s * 1000)), ("to", .num (e * 1000))])])
      "offsets" = some (Json.obj [("from", .num (s * 1000)), ("to", .num (e * 1000))]) := rfl
  have h3 : jGet (Json.obj [("from", .num (s * 1000)), ("to", .num (e * 1000))])
      "from" = some (.num (s * 1000)) := rfl
  have h4 : jGet (Json.obj [("from", .num (s * 1000)), ("to", .num (e * 1000))])
      "to" = some (.num (e * 1000)) := rfl
  simp only [segFromTranscriptionEntry, h1, h2, h3, h4, asNum, asStr, Option.some_bind,
    Option.getD_some, ht, mul_div_cancel_right₀ _ h1000]
  rw [if_neg hne]

theorem transcription_entries (es : List (ℚ × ℚ × String))
    (h : ∀ x ∈ es, strTrim x.2.2 = x.2.2 ∧ x.2.2 ≠ "") :
    (es.map (fun x => Json.obj [("text", .str x.2.2),
        ("offsets", Json.obj [("from", .num (x.1 * 1000)),
          ("to", .num (x.2.1 * 1000))])])).filterMap segFromTranscriptionEntry
      = mkSegs es := by
  induction es with
  | nil => rfl
  | cons x xs ih =>
    obtain ⟨ht, hne⟩ := h x (List.mem_cons_self x xs)
    have hx := segFromTranscriptionEntry_offsets x.1 x.2.1 x.2.2 ht hne
    simp only [List.map_cons, List.filterMap_cons, hx]
    rw [ih (fun y hy => h y (List.mem_cons_of_mem x hy))]
    rfl

/-- C9: `get_segments` normalizes the three transcript JSON shapes to the
same `{start, end, text}` triples in seconds — a flat array is returned
as-is; in the `segments` shape `start`/`end` are taken directly or, when
only `t0`/`t1` are present, divided by 100 (centiseconds); in the
`transcription` shape `offsets.from`/`offsets.to` are divided by 1000
(milliseconds); and in the latter two shapes entries whose trimmed text is
empty are omitted. -/
theorem get_segments_normalizes (es : List (ℚ × ℚ × String))
    (h : ∀ x ∈ es, strTrim x.2.2 = x.2.2 ∧ x.2.2 ≠ "") :
    get_segments_from_json (flatDoc es) = .ok (mkSegs es)
      ∧ get_segments_from_json (segmentsDocSE es) = .ok (mkSegs es)
      ∧ get_segments_from_json (segmentsDocT0T1 es) = .ok (mkSegs es)
      ∧ get_segments_from_json (transcriptionDoc es) = .ok (mkSegs es)
      ∧ (∀ s e : ℚ, get_segments_from_json (segmentsDocSE [(s, e, "  ")]) = .ok []
          ∧ get_segments_from_json (transcriptionDoc [(s, e, "  ")]) = .ok []) := by
  refine ⟨?_, ?_, ?_, ?_, ?_⟩
  · simp only [get_segments_from_json, tryParse_flatDoc es]
  · have h1 : tryParseSegments (segmentsDocSE es) = none := rfl
    have h2 : jGet (segmentsDocSE es) "segments"
        = some (.arr (es.map (fun x => mkSegJson x.1 x.2.1 x.2.2))) := rfl
    simp only [get_segments_from_json, h1, h2]
    exact congrArg Except.ok (segmentsSE_entries es h)
  · have h1 : tryParseSegments (segmentsDocT0T1 es) = none := rfl
    have h2 : jGet (segmentsDocT0T1 es) "segments"
        = some (.arr (es.map (fun x => Json.obj [("t0", .num (x.1 * 100)),
            ("t1", .num (x.2.1 * 100)), ("text", .str x.2.2)]))) := rfl
    simp only [get_segments_from_json, h1, h2]
    exact congrArg Except.ok (segmentsT0T1_entries es h)
  · have h1 : tryParseSegments (transcriptionDoc es) = none := rfl
    have h2 : jGet (transcriptionDoc es) "segments" = none := rfl
    have h3 : jGet (transcriptionDoc es) "transcription"
        = some (.arr (es.map (fun x => Json.obj [("text", .str x.2.2),
            ("offsets", Json.obj [("from", .num (x.1 * 1000)),
              ("to", .num (x.2.1 * 1000))])]))) := rfl
    simp only [get_segments_from_json, h1, h2, h3]
    exact congrArg Except.ok (transcription_entries es h)
  · intro s e
    have htrim : strTrim "  " = "" := rfl
    constructor
    · have h1 : tryParseSegments (segmentsDocSE [(s, e, "  ")]) = none := rfl
      have h2 : jGet (segmentsDocSE [(s, e, "  ")]) "segments"
          = some (.arr [mkSegJson s e "  "]) := rfl
      have hx : segFromSegmentsEntry (mkSegJson s e "  ") = none := by
        have g1 : jGet (mkSegJson s e "  ") "text" = some (.str "  ") := rfl
        have g2 : jGet (mkSegJson s e "  ") "start" = some (.num s) := rfl
        have g3 : jGet (mkSegJson s e "  ") "end" = some (.num e) := rfl
        simp only [segFromSegmentsEntry, g1, g2, g3, asNum, asStr, Option.some_bind,
          Option.getD_some, Option.some_orElse, htrim]
        simp
      simp only [get_segments_from_json, h1, h2, List.filterMap_cons, hx,
        List.filterMap_nil]
    · have h1 : tryParseSegments (transcriptionDoc [(s, e, "  ")]) = none := rfl
      have h2 : jGet (transcriptionDoc [(s, e, "  ")]) "segments" = none := rfl
      have h3 : jGet (transcriptionDoc [(s, e, "  ")]) "transcription"
          = some (.arr [Json.obj [("text", .str "  "),
              ("offsets", Json.obj [("from", .num (s * 1000)),
                ("to", .num (e * 1000))])]]) := rfl
      have hx : segFromTranscriptionEntry (Json.obj [("text", .str "  "),
          ("offsets", Json.obj [("from", .num (s * 1000)), ("to", .num (e * 1000))])])
          = none := by
        have g1 : jGet (Json.obj [("text", .str "  "),
            ("offsets", Json.obj [("from", .num (s * 1000)), ("to", .num (e * 1000))])])
            "text" = some (.str "  ") := rfl
        simp only [segFromTranscriptionEntry, g1, asStr, Option.some_bind,
          Option.getD_some, htrim]
        simp
      simp only [get_segments_from_json, h1, h2, h3, List.filterMap_cons, hx,
        List.filterMap_nil]

/-- Witness for C9 on a concrete two-entry transcript. -/
theorem get_segments_normalizes_witness :
    (∀ x ∈ [((0 : ℚ), (3/2 : ℚ), "Hello"), ((8/5 : ℚ), (16/5 : ℚ), "world")],
        strTrim x.2.2 = x.2.2 ∧ x.2.2 ≠ "")
      ∧ (get_segments_from_json (flatDoc [(0, 3/2, "Hello"), (8/5, 16/5, "world")])
            = .ok (mkSegs [(0, 3/2, "Hello"), (8/5, 16/5, "world")])
          ∧ get_segments_from_json (segmentsDocSE [(0, 3/2, "Hello"), (8/5, 16/5, "world")])
            = .ok (mkSegs [(0, 3/2, "Hello"), (8/5, 16/5, "world")])
          ∧ get_segments_from_json (segmentsDocT0T1 [(0, 3/2, "Hello"), (8/5, 16/5, "world")])
            = .ok (mkSegs [(0, 3/2, "Hello"), (8/5, 16/5, "world")])
          ∧ get_segments_from_json (transcriptionDoc [(0, 3/2, "Hello"), (8/5, 16/5, "world")])
            = .ok (mkSegs [(0, 3/2, "Hello"), (8/5, 16/5, "world")])
          ∧ (∀ s e : ℚ,
              get_segments_from_json (segmentsDocSE [(s, e, "  ")]) = .ok []
                ∧ get_segments_from_json (transcriptionDoc [(s, e, "  ")]) = .ok [])) :=
  ⟨by decide, get_segments_normalizes [(0, 3/2, "Hello"), (8/5, 16/5, "world")] (by decide)⟩

end Voicenote
